import Mathlib

/-!
Shallow embedding of the physics interaction engine of this repository
(`src/www/js/physics-engine.js`, `src/www/js/physics-object.js`,
`src/www/js/config.js`) and proofs about its object-pool lifecycle,
spawn/recycle policy, hit-testing and force application.

Modelling conventions:
* JavaScript numbers are modelled as exact rationals (`ℚ`); timestamps
  (`Date.now()`) as naturals (`ℕ`).
* `Math.random()` draws (object type, size, polygon side count) are passed
  to the embedded operations as explicit parameters.
* `Math.sqrt`, `Math.cos`/`Math.sin` and `Math.atan2` produce transcendental
  values; where the source computes such a value and feeds it onward, the
  embedding takes that value as an explicit parameter (documented at each
  use site), and comparisons of the form `sqrt e ≤ r` are embedded as the
  algebraically equivalent `e ≤ r * r` (equivalent over the reals for
  `0 ≤ r`, since `sqrt` is monotone).
* JavaScript object reference equality (`===`, `indexOf`, `includes`) is
  modelled by unique numeric identities: every created body receives a fresh
  id from the engine's monotone id counter (`Common.nextId()` in Matter.js).
* The object pool aliasing (the same `PhysicsObject` is referenced both from
  `objectPool` and from `activeObjects`) is modelled by storing the objects
  in the pool array only and letting `activeObjects` hold pool indices.
-/

/-- A 2D point/vector with exact rational coordinates, modelling the
`{x, y}` records of the source. -/
structure Vec where
  x : ℚ
  y : ℚ
deriving DecidableEq, Repr

/-- A Matter.js rigid body, restricted to the fields the engine layer
reads: identity, current position, `isStatic`, `circleRadius` (present
exactly on circle bodies), the world-space vertex list, and the label
used by `createBodies`/`resize`. -/
structure MBody where
  id : ℕ
  position : Vec
  isStatic : Bool
  circleRadius : Option ℚ
  vertices : List Vec
  label : String
deriving DecidableEq, Repr

/-- A pooled physics object (`PhysicsObject` in `physics-object.js`):
wraps an optional body handle, the shape kind, the active flag and the
creation timestamp. -/
structure PhysicsObject where
  body : Option MBody
  type : Option String
  active : Bool
  creationTime : ℕ
deriving DecidableEq, Repr

/-- The `PhysicsObject` constructor: `body = null`, `type = null`,
`active = false`, `creationTime = 0`. -/
def PhysicsObject.mkNew : PhysicsObject :=
  { body := none, type := none, active := false, creationTime := 0 }

instance : Inhabited PhysicsObject := ⟨PhysicsObject.mkNew⟩

namespace config

/-- `config.limits.maxBodies` in `config.js`. -/
def maxBodies : ℕ := 100

/-- `config.limits.poolSize` in `config.js`. -/
def poolSize : ℕ := 150

/-- `config.limits.spawnInterval` in `config.js` (ms). -/
def spawnInterval : ℕ := 50

/-- `config.objects.minSize` in `config.js`. -/
def minSize : ℚ := 15

/-- `config.objects.maxSize` in `config.js`. -/
def maxSize : ℚ := 50

end config

/-- Vertex list of a Matter.js `Bodies.rectangle(cx, cy, w, h)` body:
the four corners of the axis-aligned rectangle centred at `(cx, cy)`. -/
def rectVertices (center : Vec) (w h : ℚ) : List Vec :=
  [ ⟨center.x - w / 2, center.y - h / 2⟩
  , ⟨center.x + w / 2, center.y - h / 2⟩
  , ⟨center.x + w / 2, center.y + h / 2⟩
  , ⟨center.x - w / 2, center.y + h / 2⟩ ]

namespace PhysicsObject

/-- The body created by `init` for a given shape kind: `Bodies.circle` for
`"circle"` (radius = the random `size`), `Bodies.rectangle` with equal
sides for `"box"`, `Bodies.polygon` for `"polygon"` (its cos/sin vertex
ring is supplied as `polyVerts`). -/
def initBody (type : String) (position : Vec) (size : ℚ)
    (polyVerts : List Vec) (newId : ℕ) : MBody :=
  if type = "circle" then
    { id := newId, position := position, isStatic := false,
      circleRadius := some size, vertices := [], label := type }
  else if type = "box" then
    { id := newId, position := position, isStatic := false,
      circleRadius := none, vertices := rectVertices position size size,
      label := type }
  else
    { id := newId, position := position, isStatic := false,
      circleRadius := none, vertices := polyVerts, label := type }

/-- `PhysicsObject.init(type, position, options)`: (re)creates the wrapped
body at `position` and marks the slot active.  The random size draw
(`minSize + Math.random() * (maxSize - minSize)`), the random polygon side
count and the trigonometric vertex placement of `Bodies.polygon` are passed
in as `size`, `sides` and `polyVerts`; the fresh `Common.nextId()` token as
`newId`; `Date.now()` as `now`.  The created bodies are non-static (the
spawn options set only `label` and `isInteractive`). -/
def init (o : PhysicsObject) (type : String) (position : Vec) (size : ℚ)
    (sides : ℕ) (polyVerts : List Vec) (newId : ℕ) (now : ℕ) : PhysicsObject :=
  let _ := sides
  { o with
    body := some (initBody type position size polyVerts newId),
    type := some type, active := true,
    creationTime := now }

/-- `PhysicsObject.deactivate()`: clears only the active flag; the body
handle is deliberately left in place. -/
def deactivate (o : PhysicsObject) : PhysicsObject :=
  { o with active := false }

end PhysicsObject

/-!
Stable sorting.  `recycleOldestObject` sorts `activeObjects` with
`sort((a, b) => a.creationTime - b.creationTime)`; `Array.prototype.sort`
is stable (ES2019), so ties keep their relative order.  We model it by a
stable insertion sort: each element is inserted after all already-placed
elements whose key is `≤` its own.
-/

/-- Insert `x` into `l` after every element whose key is `≤ key x`
(stable insertion into a key-sorted list). -/
def insertByKey (key : α → ℕ) (x : α) : List α → List α
  | [] => [x]
  | y :: ys => if key y ≤ key x then y :: insertByKey key x ys else x :: y :: ys

/-- Stable insertion sort by a natural-number key, processing the list
left to right (so equal-key elements keep their original order). -/
def sortByKey (key : α → ℕ) (l : List α) : List α :=
  l.foldl (fun acc x => insertByKey key x acc) []

/-- The first element of `l` attaining the minimal key (ties are won by
the earlier element).  This is the selection `recycleOldestObject` is
specified to make. -/
def firstMinByKey (key : α → ℕ) : List α → Option α
  | [] => none
  | x :: xs =>
    match firstMinByKey key xs with
    | none => some x
    | some m => if key x ≤ key m then some x else some m

instance : Inhabited MBody :=
  ⟨{ id := 0, position := ⟨0, 0⟩, isStatic := false, circleRadius := none,
     vertices := [], label := "" }⟩

/-- `findIndex` followed by `splice(index, 1)`: remove the first element
satisfying `p`, leaving the list unchanged when none does. -/
def removeFirstBy (p : α → Bool) : List α → List α
  | [] => []
  | x :: xs => if p x then xs else x :: removeFirstBy p xs

/-- The mutable state of `PhysicsEngine` that the claims are about:
the static boundary bodies, the `bodies.dynamic` mirror, the Matter.js
world membership (`Composite.allBodies(engine.world)`), the object pool,
`activeObjects` (as indices into the pool, modelling the shared object
references), `lastSpawnTime`, the `activeBody` interaction reference
(by body id) and the monotone id counter. -/
structure EngineState where
  staticBodies : List MBody
  dynamicBodies : List MBody
  worldBodies : List MBody
  pool : List PhysicsObject
  activeObjects : List ℕ
  lastSpawnTime : ℕ
  activeBody : Option ℕ
  nextId : ℕ
deriving DecidableEq, Repr

namespace PhysicsEngine

/-- The pool slot at index `i` (indices stored in `activeObjects` are
always in range; the default is never reached from reachable states). -/
def poolObj (s : EngineState) (i : ℕ) : PhysicsObject :=
  s.pool.getD i default

/-- The id of the body wrapped by pool slot `i` (0 when the slot has no
body, which never happens for members of `activeObjects`). -/
def bodyIdAt (s : EngineState) (i : ℕ) : ℕ :=
  ((poolObj s i).body.map MBody.id).getD 0

/-- The `creationTime` of pool slot `i`, the key of the eviction sort. -/
def creationAt (s : EngineState) (i : ℕ) : ℕ :=
  (poolObj s i).creationTime

/-- The current position of the body wrapped by pool slot `i`. -/
def activePos (s : EngineState) (i : ℕ) : Vec :=
  ((poolObj s i).body.map MBody.position).getD ⟨0, 0⟩

/-- `PhysicsEngine.recycleOldestObject()`: returns `null` on an empty
`activeObjects`; otherwise stably sorts `activeObjects` by `creationTime`
(mutating the array order) and shifts off the head, removes that object's
body from the world and from `bodies.dynamic` (first occurrence, by
reference), and deactivates it.  The returned value is the recycled
object's pool index. -/
def recycleOldestObject (s : EngineState) : Option ℕ × EngineState :=
  match sortByKey (creationAt s) s.activeObjects with
  | [] => (none, s)
  | oldest :: rest =>
    let bid := bodyIdAt s oldest
    (some oldest,
     { s with
       worldBodies := removeFirstBy (fun b => b.id == bid) s.worldBodies,
       dynamicBodies := removeFirstBy (fun b => b.id == bid) s.dynamicBodies,
       pool := s.pool.set oldest (poolObj s oldest).deactivate,
       activeObjects := rest })

/-- `PhysicsEngine.getObjectFromPool()`: the first inactive pool slot in
array order, or the result of forcibly recycling the oldest active
object when every slot is active. -/
def getObjectFromPool (s : EngineState) : Option ℕ × EngineState :=
  match (List.range s.pool.length).find? (fun i => !(poolObj s i).active) with
  | some i => (some i, s)
  | none => recycleOldestObject s

/-- `PhysicsEngine.getWeightedRandomTypeIndex()`: cumulative-weight scan
over `config.objects.typeWeights`; `randomValue` stands for
`Math.random() * totalWeight`.  Returns the first index whose cumulative
weight is `≥ randomValue`, defaulting to 0. -/
def getWeightedRandomTypeIndex (randomValue : ℚ) : ℕ :=
  go randomValue 0 0 [2, 2, 1]
where
  /-- One step of the cumulative-weight scan. -/
  go (randomValue : ℚ) (i : ℕ) (weightSum : ℚ) : List ℚ → ℕ
    | [] => 0
    | w :: ws =>
      if randomValue ≤ weightSum + w then i else go randomValue (i + 1) (weightSum + w) ws

/-- The `Math.random()` draws consumed by one `spawnObjectAtPoint` call:
the weighted type draw, the size draw, the polygon side-count draw and
the trigonometric vertex ring of `Bodies.polygon`. -/
structure SpawnRandom where
  randomValue : ℚ
  size : ℚ
  sides : ℕ
  polyVerts : List Vec
deriving DecidableEq, Repr

/-- The shape kind selected by one spawn:
`config.objects.types[this.getWeightedRandomTypeIndex()]`. -/
def spawnType (randomValue : ℚ) : String :=
  (["circle", "box", "polygon"] : List String).getD
    (getWeightedRandomTypeIndex randomValue) "circle"

/-- `PhysicsEngine.spawnObjectAtPoint(point)`: returns `null` when less
than `spawnInterval` ms have elapsed since the last successful spawn;
otherwise evicts the oldest active object when `activeObjects.length >=
maxBodies`, obtains a pool slot, initializes it at `point`, inserts the
new body into the world and `bodies.dynamic`, appends the object to
`activeObjects` and records `now` as the last spawn time.  `now` stands
for `Date.now()`, `rnd` for the call's `Math.random()` draws. -/
def spawnObjectAtPoint (s : EngineState) (point : Vec) (now : ℕ)
    (rnd : SpawnRandom) : Option ℕ × EngineState :=
  if now - s.lastSpawnTime < config.spawnInterval then (none, s)
  else
    match getObjectFromPool (if config.maxBodies ≤ s.activeObjects.length
        then (recycleOldestObject s).2 else s) with
    | (none, s2) => (none, s2)
    | (some i, s2) =>
      (some i,
       { s2 with
         pool := s2.pool.set i ((poolObj s2 i).init
           (spawnType rnd.randomValue) point rnd.size rnd.sides rnd.polyVerts
           s2.nextId now),
         activeObjects := s2.activeObjects ++ [i],
         worldBodies := s2.worldBodies ++ [PhysicsObject.initBody
           (spawnType rnd.randomValue) point rnd.size rnd.polyVerts s2.nextId],
         dynamicBodies := s2.dynamicBodies ++ [PhysicsObject.initBody
           (spawnType rnd.randomValue) point rnd.size rnd.polyVerts s2.nextId],
         lastSpawnTime := now,
         nextId := s2.nextId + 1 })

/-- The off-screen test of `recycleOffscreenBodies` with its fixed
100-unit buffer: `pos.y > height + buffer || pos.x < -buffer ||
pos.x > width + buffer`.  (Note there is no test against the top edge.) -/
def offscreenTest (pos : Vec) (width height : ℚ) : Bool :=
  decide (pos.y > height + 100) || decide (pos.x < -100) ||
    decide (pos.x > width + 100)

/-- One iteration of the recycling loop of `recycleOffscreenBodies`:
remove the body of `activeObjects[idx]` from the world and from
`bodies.dynamic`, deactivate the object, and splice it out of
`activeObjects`. -/
def recycleAt (s : EngineState) (idx : ℕ) : EngineState :=
  match s.activeObjects[idx]? with
  | none => s
  | some poolIdx =>
    let bid := bodyIdAt s poolIdx
    { s with
      worldBodies := removeFirstBy (fun b => b.id == bid) s.worldBodies,
      dynamicBodies := removeFirstBy (fun b => b.id == bid) s.dynamicBodies,
      pool := s.pool.set poolIdx (poolObj s poolIdx).deactivate,
      activeObjects := s.activeObjects.eraseIdx idx }

/-- `PhysicsEngine.recycleOffscreenBodies()`: first collects (scanning
`activeObjects` from the last index down to 0) the indices of objects
whose position passes `offscreenTest` for the current render dimensions,
then recycles each collected index in that (descending) order. -/
def recycleOffscreenBodies (s : EngineState) (width height : ℚ) : EngineState :=
  let toRecycle := ((List.range s.activeObjects.length).reverse).filter
    (fun i => offscreenTest (activePos s (s.activeObjects.getD i 0)) width height)
  toRecycle.foldl recycleAt s

end PhysicsEngine

namespace PhysicsEngine

/-- `PhysicsEngine.destroyBody(body)`: no-op on `null`; otherwise removes
the body from `bodies.dynamic` (by reference), deactivates and splices out
the `activeObjects` entry wrapping it (if any), clears a matching
`activeBody` reference, and removes the body from the world.  The trailing
`applyForceToNeighbors`/`Engine.update` calls only push velocities/
positions of the remaining bodies and are covered by the abstract
integration step of the transition relation.  All of this runs inside a
`try`/`catch`, so the source never propagates an exception. -/
def destroyBody : EngineState → Option MBody → EngineState
  | s, none => s
  | s, some body =>
    match s.activeObjects.findIdx? (fun i =>
        ((poolObj s i).body.map (fun b => b.id == body.id)).getD false) with
    | some j =>
      let poolIdx := s.activeObjects.getD j 0
      { s with
        dynamicBodies := removeFirstBy (fun b => b.id == body.id) s.dynamicBodies,
        pool := s.pool.set poolIdx (poolObj s poolIdx).deactivate,
        activeObjects := s.activeObjects.eraseIdx j,
        activeBody := if s.activeBody == some body.id then none
          else s.activeBody,
        worldBodies := removeFirstBy (fun b => b.id == body.id) s.worldBodies }
    | none =>
      { s with
        dynamicBodies := removeFirstBy (fun b => b.id == body.id) s.dynamicBodies,
        activeBody := if s.activeBody == some body.id then none
          else s.activeBody,
        worldBodies := removeFirstBy (fun b => b.id == body.id) s.worldBodies }

/-- A Matter.js body position mutation (`Body.setPosition`, or one
integrator step of `Engine.update`/the runner): every body's position is
rewritten as a function of its id and old position.  All views (world,
dynamic mirror, static list, pool slots) alias the same body objects, so
all are updated consistently. -/
def repositionBody (f : ℕ → Vec → Vec) (b : MBody) : MBody :=
  { b with position := f b.id b.position }

def updatePositions (s : EngineState) (f : ℕ → Vec → Vec) : EngineState :=
  { s with
    staticBodies := s.staticBodies.map (repositionBody f),
    dynamicBodies := s.dynamicBodies.map (repositionBody f),
    worldBodies := s.worldBodies.map (repositionBody f),
    pool := s.pool.map (fun o => { o with body := o.body.map (repositionBody f) }) }

/-- `PhysicsEngine.moveBody(body, newPos)`: a direct position set on one
body (the accompanying `setVelocity` is not part of the modelled state). -/
def moveBody (s : EngineState) (bid : ℕ) (newPos : Vec) : EngineState :=
  updatePositions s (fun i old => if i = bid then newPos else old)

/-- `PhysicsEngine.destroy()`: teardown — clears the world lists, the
body arrays, the pool and `activeObjects`. -/
def destroyEngine (s : EngineState) : EngineState :=
  { s with staticBodies := [], dynamicBodies := [], worldBodies := [],
           pool := [], activeObjects := [], activeBody := none }

/-- `PhysicsEngine.forceRemoveBody(bodyToRemove)`: rebuilds the world
from all bodies except the given one. -/
def forceRemoveBody (s : EngineState) (bid : ℕ) : EngineState :=
  { s with worldBodies := s.worldBodies.filter (fun b => !(b.id == bid)) }

/-- `PhysicsEngine.resetPhysicsState()`: clears the world, re-adds the
static bodies, then every active object whose slot has a body and
`active = true`. -/
def resetPhysicsState (s : EngineState) : EngineState :=
  { s with worldBodies := s.staticBodies ++
      s.activeObjects.filterMap (fun i =>
        if (poolObj s i).active then (poolObj s i).body else none) }

/-- `PhysicsEngine.resize(width, height)`: repositions the three labelled
static boundary bodies for the new viewport. -/
def resize (s : EngineState) (width height : ℚ) : EngineState :=
  let move : MBody → MBody := fun b =>
    if b.label = "ground" then { b with position := ⟨width / 2, height + 30⟩ }
    else if b.label = "leftWall" then { b with position := ⟨-30, height / 2⟩ }
    else if b.label = "rightWall" then { b with position := ⟨width + 30, height / 2⟩ }
    else b
  { s with staticBodies := s.staticBodies.map move,
           worldBodies := s.worldBodies.map move }

/-- The engine state after `new PhysicsEngine(...)`, `init()` (which runs
`initObjectPool`) and `createBodies()`: three labelled static boundary
bodies sized from the container dimensions, an empty dynamic mirror, a
pool of `poolSize` fresh inactive objects, and no active objects. -/
def initState (width height : ℚ) : EngineState :=
  let ground : MBody :=
    { id := 0, position := ⟨width / 2, height + 30⟩,
      isStatic := true, circleRadius := none,
      vertices := rectVertices ⟨width / 2, height + 30⟩ (width + 100) 60,
      label := "ground" }
  let leftWall : MBody :=
    { id := 1, position := ⟨-30, height / 2⟩,
      isStatic := true, circleRadius := none,
      vertices := rectVertices ⟨-30, height / 2⟩ 60 height, label := "leftWall" }
  let rightWall : MBody :=
    { id := 2, position := ⟨width + 30, height / 2⟩,
      isStatic := true, circleRadius := none,
      vertices := rectVertices ⟨width + 30, height / 2⟩ 60 height,
      label := "rightWall" }
  { staticBodies := [ground, leftWall, rightWall],
    dynamicBodies := [],
    worldBodies := [ground, leftWall, rightWall],
    pool := List.replicate config.poolSize PhysicsObject.mkNew,
    activeObjects := [],
    lastSpawnTime := 0,
    activeBody := none,
    nextId := 3 }

/-- The even-odd ray-casting loop of `isPointInBody` for polygonal
bodies: `for (i = 0, j = n - 1; i < n; j = i++)` toggles `inside` when
the edge `(vertices[j], vertices[i])` straddles the horizontal through
`p` and the crossing lies to the right of `p`.  (The division is guarded
by the straddle test, which forces `vj.y ≠ vi.y`.) -/
def isPointInPolygon (vertices : List Vec) (p : Vec) : Bool :=
  (List.range vertices.length).foldl
    (fun inside i =>
      let vi := vertices.getD i ⟨0, 0⟩
      let vj := vertices.getD (if i = 0 then vertices.length - 1 else i - 1) ⟨0, 0⟩
      if (decide (vi.y > p.y) != decide (vj.y > p.y)) &&
          decide (p.x < (vj.x - vi.x) * (p.y - vi.y) / (vj.y - vi.y) + vi.x)
      then !inside else inside)
    false

/-- `PhysicsEngine.isPointInBody(body, point)`: for a circle body,
`Math.sqrt(dx*dx + dy*dy) <= body.circleRadius`, embedded as the
algebraically equivalent `dx² + dy² ≤ r²` (circle radii are positive);
otherwise the even-odd polygon test over the body's vertices. -/
def isPointInBody (body : MBody) (p : Vec) : Bool :=
  match body.circleRadius with
  | some r =>
    let dx := p.x - body.position.x
    let dy := p.y - body.position.y
    decide (dx * dx + dy * dy ≤ r * r)
  | none => isPointInPolygon body.vertices p

/-- `PhysicsEngine.getBodyAtPoint(point)`: scans `bodies.dynamic` first
and returns the first body containing the point; otherwise scans all
world bodies, skipping static ones and ones already in `bodies.dynamic`
(reference membership, modelled by id). -/
def getBodyAtPoint (s : EngineState) (p : Vec) : Option MBody :=
  match s.dynamicBodies.find? (fun b => isPointInBody b p) with
  | some b => some b
  | none =>
    s.worldBodies.find? (fun b =>
      !b.isStatic && !(s.dynamicBodies.any (fun d => d.id == b.id)) &&
        isPointInBody b p)

end PhysicsEngine

namespace PhysicsEngine

/-- `PhysicsEngine.createCircle(start, end)`: radius =
`Math.sqrt(dx*dx + dy*dy)` (passed as `dist`) clamped to
`[minSize, 2 * maxSize]`; the circle is centred at `start`, added to the
world and to `bodies.dynamic`. -/
def createCircle (s : EngineState) (start endP : Vec) (dist : ℚ) :
    MBody × EngineState :=
  let radius := max config.minSize (min dist (config.maxSize * 2))
  let _ := endP
  let b : MBody := { id := s.nextId, position := start, isStatic := false,
                     circleRadius := some radius, vertices := [], label := "" }
  (b, { s with worldBodies := s.worldBodies ++ [b],
               dynamicBodies := s.dynamicBodies ++ [b],
               nextId := s.nextId + 1 })

/-- `PhysicsEngine.createBox(start, end)`: width/height = `|Δx|`/`|Δy|`
clamped to `[minSize, 3 * maxSize]`, centred at the drag midpoint. -/
def createBox (s : EngineState) (start endP : Vec) : MBody × EngineState :=
  let width := |endP.x - start.x|
  let height := |endP.y - start.y|
  let clampedWidth := max config.minSize (min width (config.maxSize * 3))
  let clampedHeight := max config.minSize (min height (config.maxSize * 3))
  let centerX := start.x + (endP.x - start.x) / 2
  let centerY := start.y + (endP.y - start.y) / 2
  let b : MBody :=
    { id := s.nextId, position := ⟨centerX, centerY⟩, isStatic := false,
      circleRadius := none,
      vertices := rectVertices ⟨centerX, centerY⟩ clampedWidth clampedHeight,
      label := "" }
  (b, { s with worldBodies := s.worldBodies ++ [b],
               dynamicBodies := s.dynamicBodies ++ [b],
               nextId := s.nextId + 1 })

/-- `PhysicsEngine.createPolygon(start, end)`: radius as in `createCircle`
(`dist` stands for the computed distance), random side count 3–8 passed as
`sides`, and the cos/sin vertex ring of `Bodies.polygon` passed as
`polyVerts`.  Centred at `start`. -/
def createPolygon (s : EngineState) (start endP : Vec) (dist : ℚ) (sides : ℕ)
    (polyVerts : List Vec) : MBody × EngineState :=
  let radius := max config.minSize (min dist (config.maxSize * 2))
  let _ := (endP, radius, sides)
  let b : MBody := { id := s.nextId, position := start, isStatic := false,
                     circleRadius := none, vertices := polyVerts, label := "" }
  (b, { s with worldBodies := s.worldBodies ++ [b],
               dynamicBodies := s.dynamicBodies ++ [b],
               nextId := s.nextId + 1 })

/-- Corners of a thickness-`h`, length-`len` rectangle centred at `c` and
rotated so that its long axis points along the unit vector `u`
(`u = (cos angle, sin angle)` for the `angle` option of
`Bodies.rectangle`). -/
def rotRectVertices (c : Vec) (len h : ℚ) (u : Vec) : List Vec :=
  let px := -u.y
  let py := u.x
  [ ⟨c.x - u.x * (len / 2) - px * (h / 2), c.y - u.y * (len / 2) - py * (h / 2)⟩
  , ⟨c.x + u.x * (len / 2) - px * (h / 2), c.y + u.y * (len / 2) - py * (h / 2)⟩
  , ⟨c.x + u.x * (len / 2) + px * (h / 2), c.y + u.y * (len / 2) + py * (h / 2)⟩
  , ⟨c.x - u.x * (len / 2) + px * (h / 2), c.y - u.y * (len / 2) + py * (h / 2)⟩ ]

/-- `PhysicsEngine.createLine(start, end)`: a thickness-5 rectangle whose
length is `Math.sqrt(dx*dx + dy*dy)` (passed as `dist`) clamped to at most
`5 * maxSize`, centred at the drag midpoint and rotated by
`Math.atan2(dy, dx)` (whose cosine/sine pair is passed as the unit vector
`u`). -/
def createLine (s : EngineState) (start endP : Vec) (dist : ℚ) (u : Vec) :
    MBody × EngineState :=
  let thickness : ℚ := 5
  let clampedLength := min dist (config.maxSize * 5)
  let centerX := start.x + (endP.x - start.x) / 2
  let centerY := start.y + (endP.y - start.y) / 2
  let b : MBody :=
    { id := s.nextId, position := ⟨centerX, centerY⟩, isStatic := false,
      circleRadius := none,
      vertices := rotRectVertices ⟨centerX, centerY⟩ clampedLength thickness u,
      label := "" }
  (b, { s with worldBodies := s.worldBodies ++ [b],
               dynamicBodies := s.dynamicBodies ++ [b],
               nextId := s.nextId + 1 })

/-- The rendering descriptor returned by `createShapePreview`. -/
inductive ShapePreview where
  | circle (x y radius : ℚ)
  | box (x y width height : ℚ)
  | polygon (vertices : List Vec)
  | line (x1 y1 x2 y2 thickness : ℚ)
deriving DecidableEq, Repr

/-- `PhysicsEngine.createShapePreview(tool, start, end)`: pure geometry
for the live preview.  `dist` stands for the `Math.sqrt(dx*dx + dy*dy)`
computed in the circle/polygon branches; `sides` for the polygon branch's
own `Math.floor(3 + Math.random() * 6)` draw (independent of the one in
`createPolygon`); `trig i` for `(Math.cos a, Math.sin a)` at
`a = (i / sides) * 2π`.  Unknown tools yield `null`. -/
def createShapePreview (tool : String) (start endP : Vec) (dist : ℚ)
    (sides : ℕ) (trig : ℕ → Vec) : Option ShapePreview :=
  if tool = "circle" then
    let radius := min dist (config.maxSize * 2)
    some (.circle start.x start.y (max config.minSize radius))
  else if tool = "box" then
    let width := |endP.x - start.x|
    let height := |endP.y - start.y|
    let clampedWidth := max config.minSize (min width (config.maxSize * 3))
    let clampedHeight := max config.minSize (min height (config.maxSize * 3))
    some (.box (min start.x endP.x) (min start.y endP.y) clampedWidth
      clampedHeight)
  else if tool = "polygon" then
    let radius := min dist (config.maxSize * 2)
    let actualRadius := max config.minSize radius
    some (.polygon ((List.range sides).map (fun i =>
      ⟨start.x + actualRadius * (trig i).x, start.y + actualRadius * (trig i).y⟩)))
  else if tool = "line" then
    some (.line start.x start.y endP.x endP.y 5)
  else
    none

/-- The force vector `applyExplosionForce` applies to a single non-static
body within the radius: magnitude `force * (1 - Math.min(1, d / radius))`
in the direction `(dx / (d || 1), dy / (d || 1))` away from the explosion
centre.  `dist` stands for the computed `Math.sqrt(dx*dx + dy*dy)`; the
JavaScript `(distance || 1)` guard maps a zero distance to 1. -/
def explosionForceOn (bodyPos center : Vec) (dist force radius : ℚ) : Vec :=
  let magnitude := force * (1 - min 1 (dist / radius))
  let denom := if dist = 0 then 1 else dist
  ⟨(bodyPos.x - center.x) / denom * magnitude,
   (bodyPos.y - center.y) / denom * magnitude⟩

/-- `PhysicsEngine.applyExplosionForce(position, force, radius)` over a
body list: static bodies are skipped; a body receives a force exactly
when its distance (`dOf` gives each body's computed
`Math.sqrt(dx*dx + dy*dy)`) is `< radius`.  Returns the `(id, force)`
pairs of the `Body.applyForce` calls made, in scan order. -/
def applyExplosionForce (bodies : List MBody) (center : Vec) (dOf : ℕ → ℚ)
    (force radius : ℚ) : List (ℕ × Vec) :=
  bodies.filterMap (fun b =>
    if b.isStatic then none
    else if dOf b.id < radius then
      some (b.id, explosionForceOn b.position center (dOf b.id) force radius)
    else none)

end PhysicsEngine

namespace PhysicsEngine

/-- One observable engine operation (public method call) or one abstract
integrator/position mutation step. -/
inductive EngineOp where
  | spawn (point : Vec) (now : ℕ) (rnd : SpawnRandom)
  | recycleOldest
  | recycleOffscreen (width height : ℚ)
  | destroy (bodyArg : Option MBody)
  | drawCircle (start endP : Vec) (dist : ℚ)
  | drawBox (start endP : Vec)
  | drawPolygon (start endP : Vec) (dist : ℚ) (sides : ℕ) (polyVerts : List Vec)
  | drawLine (start endP : Vec) (dist : ℚ) (u : Vec)
  | move (f : ℕ → Vec → Vec)
  | teardown
  | forceRemove (bid : ℕ)
  | reset
  | resizeTo (width height : ℚ)

/-- The state after one engine operation. -/
def applyOp (s : EngineState) : EngineOp → EngineState
  | .spawn point now rnd => (spawnObjectAtPoint s point now rnd).2
  | .recycleOldest => (recycleOldestObject s).2
  | .recycleOffscreen w h => recycleOffscreenBodies s w h
  | .destroy b => destroyBody s b
  | .drawCircle a b d => (createCircle s a b d).2
  | .drawBox a b => (createBox s a b).2
  | .drawPolygon a b d n v => (createPolygon s a b d n v).2
  | .drawLine a b d u => (createLine s a b d u).2
  | .move f => updatePositions s f
  | .teardown => destroyEngine s
  | .forceRemove bid => forceRemoveBody s bid
  | .reset => resetPhysicsState s
  | .resizeTo w h => resize s w h

/-- Reachability: every state obtainable from a freshly initialized
engine (`constructor` + `init()` + `createBodies()`) by a sequence of
engine operations and integrator steps. -/
inductive Reachable : EngineState → Prop where
  | init (width height : ℚ) : Reachable (initState width height)
  | step {s : EngineState} (op : EngineOp) : Reachable s → Reachable (applyOp s op)

/-- The engine's structural invariant: the body-count cap together with
the bookkeeping consistency (pool flags, body handles, and the 1:1 id
correspondence between active objects and the `bodies.dynamic` mirror)
needed to maintain it. -/
structure goodState (s : EngineState) : Prop where
  lenLe : s.activeObjects.length ≤ config.maxBodies
  activeNodup : s.activeObjects.Nodup
  activeValid : ∀ i ∈ s.activeObjects, i < s.pool.length
  activeFlag : ∀ i ∈ s.activeObjects, (poolObj s i).active = true
  activeHasBody : ∀ i ∈ s.activeObjects,
    ∃ b, (poolObj s i).body = some b ∧ b ∈ s.dynamicBodies
  activeIdsNodup : (s.activeObjects.map (bodyIdAt s)).Nodup
  dynIdsNodup : (s.dynamicBodies.map MBody.id).Nodup
  dynNonStatic : ∀ b ∈ s.dynamicBodies, b.isStatic = false
  dynIdsLt : ∀ b ∈ s.dynamicBodies, b.id < s.nextId

end PhysicsEngine

/-- A fixed tuple of `Math.random()` draws used for concrete evaluations:
type draw 1 (selecting `"circle"`), size 20, 5 sides, no polygon ring. -/
def exampleRnd : PhysicsEngine.SpawnRandom := ⟨1, 20, 5, []⟩

/-- A freshly initialized engine for an 800×600 container. -/
def exampleState0 : EngineState := PhysicsEngine.initState 800 600

/-- The engine after one successful spawn at `(100, 100)` at `t = 100`. -/
def exampleState1 : EngineState :=
  (PhysicsEngine.spawnObjectAtPoint exampleState0 ⟨100, 100⟩ 100 exampleRnd).2

/-- The engine after a second successful spawn at `(200, 200)` at
`t = 200`. -/
def exampleState2 : EngineState :=
  (PhysicsEngine.spawnObjectAtPoint exampleState1 ⟨200, 200⟩ 200 exampleRnd).2

/-- `exampleState1` after `recycleOldestObject` evicted its only object. -/
def exampleState1R : EngineState :=
  (PhysicsEngine.recycleOldestObject exampleState1).2

/-- The engine after one successful spawn far to the right of the
viewport (`x = 1000 > 800 + 100`), at `t = 100`. -/
def exampleStateOff : EngineState :=
  (PhysicsEngine.spawnObjectAtPoint exampleState0 ⟨1000, 100⟩ 100 exampleRnd).2

/-- Interpretation of a box preview's fields: the rectangle depicted by
top-left corner `(x, y)` and dimensions `w × h`, listed in the same
corner order as `rectVertices`.  This follows the spec's reading of the
preview geometry, for comparison against the committed body's vertex
list. -/
def previewBoxVertices (x y w h : ℚ) : List Vec :=
  [⟨x, y⟩, ⟨x + w, y⟩, ⟨x + w, y + h⟩, ⟨x, y + h⟩]

/-- Modelled from the spec: "position lies beyond the visible rectangle
expanded by a fixed buffer (100 units on all sides)" — the four-sided
off-screen region the spec claims `recycleOffscreenBodies` recycles
from (the code's `offscreenTest` omits the top side). -/
def specBeyondExpandedRect (pos : Vec) (width height : ℚ) : Prop :=
  pos.x < -100 ∨ pos.x > width + 100 ∨ pos.y < -100 ∨ pos.y > height + 100

/-- The engine after one successful spawn far above the viewport
(`y = -1000 < -100`), at `t = 100`. -/
def exampleStateTop : EngineState :=
  (PhysicsEngine.spawnObjectAtPoint exampleState0 ⟨50, -1000⟩ 100 exampleRnd).2

namespace PhysicsEngine

/-- The pool indices of the first `k` active objects that pass the
off-screen test (positions read in state `s`). -/
def offSlots (s : EngineState) (w h : ℚ) (k : ℕ) : List ℕ :=
  (s.activeObjects.take k).filter (fun j => offscreenTest (activePos s j) w h)

/-- The state after the `recycleOffscreenBodies` processing loop has
handled the collected indices below `k` (in descending order). -/
def sweepFrom (s : EngineState) (w h : ℚ) (k : ℕ) : EngineState :=
  (((List.range k).reverse).filter (fun i =>
    offscreenTest (activePos s (s.activeObjects.getD i 0)) w h)).foldl
    recycleAt s

/-- Successive first-occurrence removals of the given body ids. -/
def removeByIds (keys : List ℕ) (l : List MBody) : List MBody :=
  keys.foldl (fun acc k => removeFirstBy (fun b => b.id == k) acc) l

end PhysicsEngine

/-- Merge of two optional candidates, keeping the earlier (left) one on
key ties: the "leftmost minimum" selector. -/
def minMerge (key : α → ℕ) : Option α → Option α → Option α
  | none, b => b
  | some a, none => some a
  | some a, some b => if key a ≤ key b then some a else some b

theorem minMerge_none_right (key : α → ℕ) (a : Option α) :
    minMerge key a none = a := by
  cases a <;> rfl

theorem minMerge_assoc (key : α → ℕ) (a b c : Option α) :
    minMerge key (minMerge key a b) c = minMerge key a (minMerge key b c) := by
  cases a with
  | none => rfl
  | some a =>
    cases b with
    | none => rfl
    | some b =>
      cases c with
      | none => by_cases hab : key a ≤ key b <;> simp [minMerge, hab]
      | some c =>
        by_cases hab : key a ≤ key b <;> by_cases hbc : key b ≤ key c <;>
          by_cases hac : key a ≤ key c <;>
          simp [minMerge, hab, hbc, hac] <;> (exfalso; omega)

theorem head?_insertByKey (key : α → ℕ) (x : α) (l : List α) :
    (insertByKey key x l).head? = minMerge key l.head? (some x) := by
  cases l with
  | nil => rfl
  | cons y ys =>
    simp only [insertByKey, minMerge, List.head?]
    by_cases h : key y ≤ key x <;> simp [h]

theorem firstMinByKey_cons (key : α → ℕ) (x : α) (xs : List α) :
    firstMinByKey key (x :: xs) = minMerge key (some x) (firstMinByKey key xs) := by
  simp only [firstMinByKey]
  cases firstMinByKey key xs <;> rfl

theorem head?_foldl_insertByKey (key : α → ℕ) (l : List α) :
    ∀ acc : List α,
      (l.foldl (fun acc x => insertByKey key x acc) acc).head? =
        minMerge key acc.head? (firstMinByKey key l) := by
  induction l with
  | nil => intro acc; simp [firstMinByKey, minMerge_none_right]
  | cons x xs ih =>
    intro acc
    simp only [List.foldl_cons]
    rw [ih, head?_insertByKey, minMerge_assoc, firstMinByKey_cons]

/-- The head of the stable sort is the first element attaining the
minimal key. -/
theorem sortByKey_head? (key : α → ℕ) (l : List α) :
    (sortByKey key l).head? = firstMinByKey key l := by
  unfold sortByKey
  rw [head?_foldl_insertByKey]
  rfl

theorem insertByKey_perm (key : α → ℕ) (x : α) (l : List α) :
    (insertByKey key x l).Perm (x :: l) := by
  induction l with
  | nil => exact List.Perm.refl _
  | cons y ys ih =>
    simp only [insertByKey]
    by_cases h : key y ≤ key x
    · simp only [h, if_true]
      exact ((ih.cons y).trans (List.Perm.swap x y ys))
    · simp [h]

theorem foldl_insertByKey_perm (key : α → ℕ) (l : List α) :
    ∀ acc : List α,
      (l.foldl (fun acc x => insertByKey key x acc) acc).Perm (l ++ acc) := by
  induction l with
  | nil => intro acc; simp
  | cons x xs ih =>
    intro acc
    simp only [List.foldl_cons]
    refine (ih (insertByKey key x acc)).trans ?_
    refine ((insertByKey_perm key x acc).append_left xs).trans ?_
    exact List.perm_middle

/-- The stable sort is a permutation of its input. -/
theorem sortByKey_perm (key : α → ℕ) (l : List α) :
    (sortByKey key l).Perm l := by
  simpa using foldl_insertByKey_perm key l []

theorem sortByKey_eq_nil_iff (key : α → ℕ) (l : List α) :
    sortByKey key l = [] ↔ l = [] := by
  constructor
  · intro h
    have h2 := sortByKey_perm key l
    rw [h] at h2
    exact h2.symm.eq_nil
  · intro h; subst h; rfl

theorem firstMinByKey_mem (key : α → ℕ) {l : List α} {m : α}
    (h : firstMinByKey key l = some m) : m ∈ l := by
  induction l with
  | nil => simp [firstMinByKey] at h
  | cons x xs ih =>
    rw [firstMinByKey_cons] at h
    cases h2 : firstMinByKey key xs with
    | none => rw [h2] at h; simp [minMerge] at h; simp [h]
    | some m2 =>
      rw [h2] at h
      simp only [minMerge] at h
      by_cases hle : key x ≤ key m2
      · simp [hle] at h; simp [h]
      · simp [hle] at h
        exact List.mem_cons_of_mem x (ih (h ▸ h2))

theorem firstMinByKey_eq_none (key : α → ℕ) {l : List α} :
    firstMinByKey key l = none ↔ l = [] := by
  cases l with
  | nil => simp [firstMinByKey]
  | cons x xs =>
    rw [firstMinByKey_cons]
    constructor
    · intro h
      exfalso
      cases h2 : firstMinByKey key xs with
      | none => rw [h2] at h; simp [minMerge] at h
      | some m => rw [h2] at h; simp only [minMerge] at h; split at h <;> simp at h
    · intro h; simp at h

theorem firstMinByKey_le (key : α → ℕ) {l : List α} {m : α}
    (h : firstMinByKey key l = some m) : ∀ y ∈ l, key m ≤ key y := by
  induction l generalizing m with
  | nil => simp [firstMinByKey] at h
  | cons x xs ih =>
    rw [firstMinByKey_cons] at h
    intro y hy
    cases h2 : firstMinByKey key xs with
    | none =>
      have hxs : xs = [] := (firstMinByKey_eq_none key).mp h2
      subst hxs
      rw [h2] at h
      simp only [minMerge] at h
      have hxm : x = m := by injection h
      simp only [List.mem_singleton] at hy
      rw [← hxm, hy]
    | some m2 =>
      rw [h2] at h
      simp only [minMerge] at h
      rcases List.mem_cons.mp hy with h3 | h3
      · by_cases hle : key x ≤ key m2
        · rw [if_pos hle] at h
          have h4 : x = m := by injection h
          rw [← h4, h3]
        · rw [if_neg hle] at h
          have h4 : m2 = m := by injection h
          rw [← h4, h3]
          omega
      · by_cases hle : key x ≤ key m2
        · rw [if_pos hle] at h
          have h4 : x = m := by injection h
          rw [← h4]
          exact le_trans hle (ih h2 y h3)
        · rw [if_neg hle] at h
          have h4 : m2 = m := by injection h
          rw [← h4]
          exact ih h2 y h3

/-- The selected element sits at the first position attaining the
minimum: everything strictly before it has a strictly greater key (so on
key ties the earliest-inserted element wins). -/
theorem firstMinByKey_earliest (key : α → ℕ) {l : List α} {m : α}
    (h : firstMinByKey key l = some m) :
    ∃ l1 l2, l = l1 ++ m :: l2 ∧ ∀ y ∈ l1, key m < key y := by
  induction l generalizing m with
  | nil => simp [firstMinByKey] at h
  | cons x xs ih =>
    rw [firstMinByKey_cons] at h
    cases h2 : firstMinByKey key xs with
    | none =>
      have hxs : xs = [] := (firstMinByKey_eq_none key).mp h2
      subst hxs
      rw [h2] at h
      simp only [minMerge] at h
      have hxm : x = m := by injection h
      exact ⟨[], [], by simp [hxm], by simp⟩
    | some m2 =>
      rw [h2] at h
      simp only [minMerge] at h
      by_cases hle : key x ≤ key m2
      · rw [if_pos hle] at h
        have h4 : x = m := by injection h
        exact ⟨[], xs, by simp [h4], by simp⟩
      · rw [if_neg hle] at h
        have h4 : m2 = m := by injection h
        rw [← h4]
        obtain ⟨l1, l2, heq, hgt⟩ := ih h2
        refine ⟨x :: l1, l2, by simp [heq], ?_⟩
        intro y hy
        rcases List.mem_cons.mp hy with h5 | h5
        · rw [h5]
          omega
        · exact hgt y h5

theorem removeFirstBy_sublist (p : α → Bool) (l : List α) :
    (removeFirstBy p l).Sublist l := by
  induction l with
  | nil => simp [removeFirstBy]
  | cons x xs ih =>
    simp only [removeFirstBy]
    by_cases h : p x = true
    · simp only [h, if_true]
      exact List.sublist_cons_self x xs
    · simp only [h, if_false]
      exact ih.cons₂ x

theorem mem_removeFirstBy_of_mem (p : α → Bool) {a : α} {l : List α}
    (ha : a ∈ l) (hpa : p a = false) : a ∈ removeFirstBy p l := by
  induction l with
  | nil => simp at ha
  | cons x xs ih =>
    simp only [removeFirstBy]
    by_cases hpx : p x = true
    · simp only [hpx, if_true]
      rcases List.mem_cons.mp ha with h | h
      · rw [h] at hpa; rw [hpa] at hpx; cases hpx
      · exact h
    · simp only [hpx, if_false]
      rcases List.mem_cons.mp ha with h | h
      · rw [h]; exact List.mem_cons_self _ _
      · exact List.mem_cons_of_mem _ (ih h)

theorem removeFirstBy_eq_self (p : α → Bool) {l : List α}
    (h : ∀ a ∈ l, p a = false) : removeFirstBy p l = l := by
  induction l with
  | nil => rfl
  | cons x xs ih =>
    have hx := h x (List.mem_cons_self x xs)
    simp only [removeFirstBy, hx, Bool.false_eq_true, if_false]
    rw [ih (fun a ha => h a (List.mem_cons_of_mem _ ha))]

theorem getD_set_ne {l : List β} {j i : ℕ} (b d : β) (hne : i ≠ j) :
    (l.set j b).getD i d = l.getD i d := by
  simp [List.getD, List.getElem?_set_ne (Ne.symm hne)]

theorem getD_set_self {l : List β} {i : ℕ} (b d : β) (h : i < l.length) :
    (l.set i b).getD i d = b := by
  simp [List.getD, List.getElem?_set_self h]

/-- A list is a permutation of any of its elements consed onto the list
with that element's position erased. -/
theorem perm_cons_eraseIdx {l : List α} {i : ℕ} {x : α} (h : l[i]? = some x) :
    l.Perm (x :: l.eraseIdx i) := by
  induction l generalizing i with
  | nil => simp at h
  | cons y ys ih =>
    cases i with
    | zero =>
      simp only [List.getElem?_cons_zero, Option.some.injEq] at h
      rw [h]
      simp [List.eraseIdx]
    | succ n =>
      simp only [List.getElem?_cons_succ] at h
      simp only [List.eraseIdx]
      exact ((ih h).cons y).trans (List.Perm.swap x y _)

namespace PhysicsEngine

theorem goodState_initState (width height : ℚ) :
    goodState (initState width height) := by
  constructor <;> simp [initState]

end PhysicsEngine

namespace PhysicsEngine

theorem bodyIdAt_eq {s : EngineState} {i : ℕ} {b : MBody}
    (hb : (poolObj s i).body = some b) : bodyIdAt s i = b.id := by
  simp [bodyIdAt, hb]

theorem initBody_id (type : String) (p : Vec) (size : ℚ) (v : List Vec)
    (n : ℕ) : (PhysicsObject.initBody type p size v n).id = n := by
  unfold PhysicsObject.initBody
  split <;> first | rfl | (split <;> rfl)

theorem initBody_isStatic (type : String) (p : Vec) (size : ℚ) (v : List Vec)
    (n : ℕ) : (PhysicsObject.initBody type p size v n).isStatic = false := by
  unfold PhysicsObject.initBody
  split <;> first | rfl | (split <;> rfl)

/-- Removing one active object (the common core of `recycleOldestObject`,
the `recycleOffscreenBodies` loop body, and the pooled branch of
`destroyBody`) preserves the engine invariant: here `poolIdx` is the
removed object's slot, `rest` the remaining `activeObjects`. -/
theorem goodState_removeActive {s t : EngineState} (hg : goodState s)
    {poolIdx : ℕ} {rest : List ℕ}
    (hperm : s.activeObjects.Perm (poolIdx :: rest))
    (hdyn : t.dynamicBodies =
      removeFirstBy (fun b => b.id == bodyIdAt s poolIdx) s.dynamicBodies)
    (hpool : t.pool = s.pool.set poolIdx (poolObj s poolIdx).deactivate)
    (hact : t.activeObjects = rest)
    (hnext : t.nextId = s.nextId) :
    goodState t := by
  have hmem : poolIdx ∈ s.activeObjects :=
    hperm.mem_iff.mpr (List.mem_cons_self _ _)
  have hnodupPR : (poolIdx :: rest).Nodup := hperm.nodup hg.activeNodup
  have hnotin : poolIdx ∉ rest := (List.nodup_cons.mp hnodupPR).1
  have hsub : ∀ i ∈ rest, i ∈ s.activeObjects := fun i hi =>
    hperm.mem_iff.mpr (List.mem_cons_of_mem _ hi)
  have hne : ∀ i ∈ rest, i ≠ poolIdx := by
    intro i hi heq
    exact hnotin (heq ▸ hi)
  have hobj : ∀ i ∈ rest, poolObj t i = poolObj s i := by
    intro i hi
    simp only [poolObj, hpool]
    exact getD_set_ne _ _ (hne i hi)
  have hids : ∀ i ∈ rest, bodyIdAt t i = bodyIdAt s i := by
    intro i hi
    simp only [bodyIdAt, hobj i hi]
  have hidne : ∀ i ∈ rest, bodyIdAt s i ≠ bodyIdAt s poolIdx := by
    intro i hi heq
    exact hne i hi
      (List.inj_on_of_nodup_map hg.activeIdsNodup (hsub i hi) hmem heq)
  constructor
  · rw [hact]
    have := hperm.length_eq
    simp only [List.length_cons] at this
    have h2 := hg.lenLe
    omega
  · rw [hact]
    exact (List.nodup_cons.mp hnodupPR).2
  · intro i hi
    rw [hact] at hi
    have := hg.activeValid i (hsub i hi)
    rw [hpool, List.length_set]
    exact this
  · intro i hi
    rw [hact] at hi
    rw [hobj i hi]
    exact hg.activeFlag i (hsub i hi)
  · intro i hi
    rw [hact] at hi
    obtain ⟨b, hb, hbd⟩ := hg.activeHasBody i (hsub i hi)
    refine ⟨b, by rw [hobj i hi]; exact hb, ?_⟩
    rw [hdyn]
    refine mem_removeFirstBy_of_mem _ hbd ?_
    have : b.id = bodyIdAt s i := (bodyIdAt_eq hb).symm
    rw [this]
    simp only [beq_eq_false_iff_ne, ne_eq]
    exact hidne i hi
  · rw [hact]
    have heqmap : rest.map (bodyIdAt t) = rest.map (bodyIdAt s) :=
      List.map_congr_left hids
    rw [heqmap]
    have hpermmap := hperm.map (bodyIdAt s)
    have : (List.map (bodyIdAt s) (poolIdx :: rest)).Nodup :=
      hpermmap.nodup hg.activeIdsNodup
    simp only [List.map_cons, List.nodup_cons] at this
    exact this.2
  · rw [hdyn]
    exact hg.dynIdsNodup.sublist ((removeFirstBy_sublist _ _).map MBody.id)
  · intro b hb
    rw [hdyn] at hb
    exact hg.dynNonStatic b ((removeFirstBy_sublist _ _).subset hb)
  · intro b hb
    rw [hdyn] at hb
    rw [hnext]
    exact hg.dynIdsLt b ((removeFirstBy_sublist _ _).subset hb)

end PhysicsEngine

namespace PhysicsEngine

theorem recycleOldestObject_nil {s : EngineState} (h : s.activeObjects = []) :
    recycleOldestObject s = (none, s) := by
  unfold recycleOldestObject
  rw [h]
  rfl

theorem recycleOldestObject_cons {s : EngineState} {oldest : ℕ} {rest : List ℕ}
    (h : sortByKey (creationAt s) s.activeObjects = oldest :: rest) :
    recycleOldestObject s =
      (some oldest,
       { s with
         worldBodies :=
           removeFirstBy (fun b => b.id == bodyIdAt s oldest) s.worldBodies,
         dynamicBodies :=
           removeFirstBy (fun b => b.id == bodyIdAt s oldest) s.dynamicBodies,
         pool := s.pool.set oldest (poolObj s oldest).deactivate,
         activeObjects := rest }) := by
  unfold recycleOldestObject
  rw [h]

theorem sortByKey_perm_of_cons {s : EngineState} {oldest : ℕ} {rest : List ℕ}
    (h : sortByKey (creationAt s) s.activeObjects = oldest :: rest) :
    s.activeObjects.Perm (oldest :: rest) := by
  have h2 := sortByKey_perm (creationAt s) s.activeObjects
  rw [h] at h2
  exact h2.symm

theorem recycleOldestObject_good {s : EngineState} (hg : goodState s) :
    goodState (recycleOldestObject s).2 := by
  cases hsort : sortByKey (creationAt s) s.activeObjects with
  | nil =>
    rw [recycleOldestObject_nil ((sortByKey_eq_nil_iff _ _).mp hsort)]
    exact hg
  | cons oldest rest =>
    rw [recycleOldestObject_cons hsort]
    exact goodState_removeActive hg (sortByKey_perm_of_cons hsort) rfl rfl rfl rfl

theorem recycleOldestObject_some {s : EngineState} {i : ℕ} {t : EngineState}
    (hg : goodState s) (h : recycleOldestObject s = (some i, t)) :
    i < t.pool.length ∧ (poolObj t i).active = false ∧
      t.activeObjects.length + 1 = s.activeObjects.length ∧
      t.nextId = s.nextId ∧ t.lastSpawnTime = s.lastSpawnTime := by
  cases hsort : sortByKey (creationAt s) s.activeObjects with
  | nil =>
    rw [recycleOldestObject_nil ((sortByKey_eq_nil_iff _ _).mp hsort)] at h
    simp at h
  | cons oldest rest =>
    rw [recycleOldestObject_cons hsort] at h
    have hperm := sortByKey_perm_of_cons hsort
    rw [Prod.mk.injEq] at h
    obtain ⟨h1, h2⟩ := h
    have hio : oldest = i := by injection h1
    subst hio
    subst h2
    have hmem : oldest ∈ s.activeObjects :=
      hperm.mem_iff.mpr (List.mem_cons_self _ _)
    have hvalid := hg.activeValid oldest hmem
    refine ⟨?_, ?_, ?_, rfl, rfl⟩
    · simpa [List.length_set] using hvalid
    · simp only [poolObj]
      rw [getD_set_self _ _ hvalid]
      rfl
    · show rest.length + 1 = s.activeObjects.length
      have := hperm.length_eq
      simp only [List.length_cons] at this
      omega

end PhysicsEngine

namespace PhysicsEngine

theorem recycleOldestObject_length_lt {s : EngineState}
    (h : s.activeObjects ≠ []) :
    (recycleOldestObject s).2.activeObjects.length + 1 =
      s.activeObjects.length := by
  cases hsort : sortByKey (creationAt s) s.activeObjects with
  | nil => exact absurd ((sortByKey_eq_nil_iff _ _).mp hsort) h
  | cons oldest rest =>
    rw [recycleOldestObject_cons hsort]
    show rest.length + 1 = s.activeObjects.length
    have := (sortByKey_perm_of_cons hsort).length_eq
    simp only [List.length_cons] at this
    omega

theorem getObjectFromPool_none {s t : EngineState}
    (h : getObjectFromPool s = (none, t)) : t = s := by
  unfold getObjectFromPool at h
  cases hf : (List.range s.pool.length).find? (fun i => !(poolObj s i).active) with
  | some j => rw [hf] at h; simp at h
  | none =>
    rw [hf] at h
    cases hsort : sortByKey (creationAt s) s.activeObjects with
    | nil =>
      rw [recycleOldestObject_nil ((sortByKey_eq_nil_iff _ _).mp hsort)] at h
      rw [Prod.mk.injEq] at h
      exact h.2.symm
    | cons oldest rest =>
      rw [recycleOldestObject_cons hsort] at h
      simp at h

theorem getObjectFromPool_some {s : EngineState} {i : ℕ} {t : EngineState}
    (hg : goodState s) (h : getObjectFromPool s = (some i, t)) :
    goodState t ∧ i < t.pool.length ∧ (poolObj t i).active = false ∧
      (t = s ∨ t.activeObjects.length + 1 = s.activeObjects.length) := by
  unfold getObjectFromPool at h
  cases hf : (List.range s.pool.length).find? (fun i => !(poolObj s i).active) with
  | some j =>
    rw [hf] at h
    rw [Prod.mk.injEq] at h
    obtain ⟨h1, h2⟩ := h
    have hij : j = i := by injection h1
    subst hij
    subst h2
    refine ⟨hg, ?_, ?_, Or.inl rfl⟩
    · exact List.mem_range.mp (List.mem_of_find?_eq_some hf)
    · have := List.find?_some hf
      simpa using this
  | none =>
    rw [hf] at h
    have h2 : recycleOldestObject s = (some i, t) := h
    obtain ⟨hv, hi, hl, _, _⟩ := recycleOldestObject_some hg h2
    have hgt : goodState t := by
      have h3 := recycleOldestObject_good hg
      rw [h2] at h3
      exact h3
    exact ⟨hgt, hv, hi, Or.inr hl⟩

/-- Inserting a freshly initialized pool slot (the tail of
`spawnObjectAtPoint` after rate check, eviction and slot acquisition)
preserves the engine invariant. -/
theorem goodState_spawnPush {s t : EngineState} (hg : goodState s)
    {i : ℕ} (hvalid : i < s.pool.length)
    (hinactive : (poolObj s i).active = false)
    (hlen : s.activeObjects.length + 1 ≤ config.maxBodies)
    {type : String} {point : Vec} {size : ℚ} {sides : ℕ}
    {polyVerts : List Vec} {now : ℕ}
    (hpool : t.pool = s.pool.set i
      ((poolObj s i).init type point size sides polyVerts s.nextId now))
    (hact : t.activeObjects = s.activeObjects ++ [i])
    (hdyn : t.dynamicBodies = s.dynamicBodies ++
      [PhysicsObject.initBody type point size polyVerts s.nextId])
    (hnext : t.nextId = s.nextId + 1) :
    goodState t := by
  have hnotin : i ∉ s.activeObjects := by
    intro hmem
    rw [hg.activeFlag i hmem] at hinactive
    cases hinactive
  have hobjne : ∀ j ∈ s.activeObjects, poolObj t j = poolObj s j := by
    intro j hj
    simp only [poolObj, hpool]
    exact getD_set_ne _ _ (fun hji => hnotin (hji ▸ hj))
  have hobj_i : poolObj t i =
      (poolObj s i).init type point size sides polyVerts s.nextId now := by
    simp only [poolObj, hpool]
    exact getD_set_self _ _ hvalid
  have hid_i : bodyIdAt t i = s.nextId := by
    have : (poolObj t i).body =
        some (PhysicsObject.initBody type point size polyVerts s.nextId) := by
      rw [hobj_i]; rfl
    rw [bodyIdAt_eq this, initBody_id]
  have holdids : ∀ j ∈ s.activeObjects, bodyIdAt s j < s.nextId := by
    intro j hj
    obtain ⟨b, hb, hbd⟩ := hg.activeHasBody j hj
    rw [bodyIdAt_eq hb]
    exact hg.dynIdsLt b hbd
  constructor
  · rw [hact]
    simp only [List.length_append, List.length_cons, List.length_nil]
    omega
  · rw [hact]
    simp [List.nodup_append, hg.activeNodup, hnotin]
  · intro j hj
    rw [hact] at hj
    rw [hpool, List.length_set]
    rcases List.mem_append.mp hj with hj | hj
    · exact hg.activeValid j hj
    · simp only [List.mem_singleton] at hj
      rw [hj]; exact hvalid
  · intro j hj
    rw [hact] at hj
    rcases List.mem_append.mp hj with hj | hj
    · rw [hobjne j hj]; exact hg.activeFlag j hj
    · simp only [List.mem_singleton] at hj
      rw [hj, hobj_i]; rfl
  · intro j hj
    rw [hact] at hj
    rcases List.mem_append.mp hj with hj | hj
    · obtain ⟨b, hb, hbd⟩ := hg.activeHasBody j hj
      exact ⟨b, by rw [hobjne j hj]; exact hb,
        by rw [hdyn]; exact List.mem_append_left _ hbd⟩
    · simp only [List.mem_singleton] at hj
      refine ⟨PhysicsObject.initBody type point size polyVerts s.nextId,
        by rw [hj, hobj_i]; rfl, ?_⟩
      rw [hdyn]
      exact List.mem_append_right _ (List.mem_singleton_self _)
  · rw [hact, List.map_append]
    have hmapeq : s.activeObjects.map (bodyIdAt t) =
        s.activeObjects.map (bodyIdAt s) := by
      refine List.map_congr_left ?_
      intro j hj
      simp only [bodyIdAt, hobjne j hj]
    rw [hmapeq]
    simp only [List.map_cons, List.map_nil, hid_i]
    rw [List.nodup_append]
    refine ⟨hg.activeIdsNodup, List.nodup_singleton _, ?_⟩
    intro a ha hb
    simp only [List.mem_singleton] at hb
    obtain ⟨j, hj, hja⟩ := List.mem_map.mp ha
    have := holdids j hj
    omega
  · rw [hdyn, List.map_append]
    simp only [List.map_cons, List.map_nil, initBody_id]
    rw [List.nodup_append]
    refine ⟨hg.dynIdsNodup, List.nodup_singleton _, ?_⟩
    intro a ha hb
    simp only [List.mem_singleton] at hb
    obtain ⟨b, hbmem, hba⟩ := List.mem_map.mp ha
    have := hg.dynIdsLt b hbmem
    omega
  · intro b hb
    rw [hdyn] at hb
    rcases List.mem_append.mp hb with hb | hb
    · exact hg.dynNonStatic b hb
    · simp only [List.mem_singleton] at hb
      rw [hb]; exact initBody_isStatic _ _ _ _ _
  · intro b hb
    rw [hdyn] at hb
    rw [hnext]
    rcases List.mem_append.mp hb with hb | hb
    · have := hg.dynIdsLt b hb
      omega
    · simp only [List.mem_singleton] at hb
      rw [hb, initBody_id]
      omega

end PhysicsEngine

namespace PhysicsEngine

theorem spawnObjectAtPoint_good {s : EngineState} (hg : goodState s)
    (point : Vec) (now : ℕ) (rnd : SpawnRandom) :
    goodState (spawnObjectAtPoint s point now rnd).2 := by
  unfold spawnObjectAtPoint
  by_cases hrate : now - s.lastSpawnTime < config.spawnInterval
  · simp only [hrate, if_true]
    exact hg
  · simp only [hrate, if_false]
    have hg1 : goodState (if config.maxBodies ≤ s.activeObjects.length
        then (recycleOldestObject s).2 else s) := by
      split
      · exact recycleOldestObject_good hg
      · exact hg
    have hlen1 : (if config.maxBodies ≤ s.activeObjects.length
        then (recycleOldestObject s).2 else s).activeObjects.length + 1 ≤
          config.maxBodies := by
      split
      · rename_i hge
        have hne : s.activeObjects ≠ [] := by
          intro h0
          rw [h0] at hge
          simp [config.maxBodies] at hge
        rw [recycleOldestObject_length_lt hne]
        exact hg.lenLe
      · rename_i hlt
        push_neg at hlt
        omega
    rcases hgop : getObjectFromPool (if config.maxBodies ≤
        s.activeObjects.length then (recycleOldestObject s).2 else s)
      with ⟨r, s2⟩
    cases r with
    | none =>
      show goodState s2
      rw [getObjectFromPool_none hgop]
      exact hg1
    | some i =>
      obtain ⟨hg2, hvalid, hinactive, hcase⟩ := getObjectFromPool_some hg1 hgop
      have hlen2 : s2.activeObjects.length + 1 ≤ config.maxBodies := by
        rcases hcase with hcase | hcase
        · rw [hcase]; exact hlen1
        · have := hg1.lenLe
          omega
      exact goodState_spawnPush hg2 hvalid hinactive hlen2 rfl rfl rfl rfl

end PhysicsEngine

namespace PhysicsEngine

theorem recycleAt_good {s : EngineState} (hg : goodState s) (idx : ℕ) :
    goodState (recycleAt s idx) := by
  unfold recycleAt
  cases hget : s.activeObjects[idx]? with
  | none => exact hg
  | some poolIdx =>
    exact goodState_removeActive hg (perm_cons_eraseIdx hget) rfl rfl rfl rfl

theorem foldl_recycleAt_good {idxs : List ℕ} :
    ∀ {s : EngineState}, goodState s → goodState (idxs.foldl recycleAt s) := by
  induction idxs with
  | nil => intro s hg; exact hg
  | cons i rest ih => intro s hg; exact ih (recycleAt_good hg i)

theorem recycleOffscreenBodies_good {s : EngineState} (hg : goodState s)
    (width height : ℚ) : goodState (recycleOffscreenBodies s width height) :=
  foldl_recycleAt_good hg

theorem destroyBody_good {s : EngineState} (hg : goodState s)
    (bodyArg : Option MBody) : goodState (destroyBody s bodyArg) := by
  cases bodyArg with
  | none => exact hg
  | some body =>
    simp only [destroyBody]
    cases hfind : s.activeObjects.findIdx? (fun i =>
        ((poolObj s i).body.map (fun b => b.id == body.id)).getD false) with
    | none =>
      have hall := List.findIdx?_eq_none_iff.mp hfind
      have hkeep : ∀ i ∈ s.activeObjects,
          ∃ b, (poolObj s i).body = some b ∧
            b ∈ removeFirstBy (fun b => b.id == body.id) s.dynamicBodies := by
        intro i hi
        obtain ⟨b, hb, hbd⟩ := hg.activeHasBody i hi
        refine ⟨b, hb, mem_removeFirstBy_of_mem _ hbd ?_⟩
        have := hall i hi
        rw [hb] at this
        simpa using this
      constructor
      · exact hg.lenLe
      · exact hg.activeNodup
      · exact hg.activeValid
      · exact hg.activeFlag
      · exact hkeep
      · exact hg.activeIdsNodup
      · exact hg.dynIdsNodup.sublist ((removeFirstBy_sublist _ _).map MBody.id)
      · intro b hb
        exact hg.dynNonStatic b ((removeFirstBy_sublist _ _).subset hb)
      · intro b hb
        exact hg.dynIdsLt b ((removeFirstBy_sublist _ _).subset hb)
    | some j =>
      obtain ⟨hjlen, hpj, _⟩ := List.findIdx?_eq_some_iff_getElem.mp hfind
      have hget : s.activeObjects[j]? = some (s.activeObjects.getD j 0) := by
        rw [List.getD_eq_getElem _ _ hjlen]
        exact List.getElem?_eq_getElem hjlen
      have hidEq : bodyIdAt s (s.activeObjects.getD j 0) = body.id := by
        rw [List.getD_eq_getElem _ _ hjlen]
        obtain ⟨b, hb⟩ : ∃ b, (poolObj s s.activeObjects[j]).body = some b := by
          cases hbb : (poolObj s s.activeObjects[j]).body with
          | none => rw [hbb] at hpj; simp at hpj
          | some b => exact ⟨b, rfl⟩
        rw [hb] at hpj
        simp only [Option.map_some', Option.getD_some, beq_iff_eq] at hpj
        rw [bodyIdAt_eq hb]
        exact hpj
      refine goodState_removeActive hg (perm_cons_eraseIdx hget) ?_ rfl rfl rfl
      show removeFirstBy (fun b => b.id == body.id) s.dynamicBodies = _
      rw [hidEq]

theorem poolObj_updatePositions (s : EngineState) (f : ℕ → Vec → Vec) (i : ℕ) :
    poolObj (updatePositions s f) i =
      { poolObj s i with body := (poolObj s i).body.map (repositionBody f) } := by
  simp only [poolObj, updatePositions, List.getD_eq_getElem?_getD,
    List.getElem?_map]
  cases s.pool[i]? with
  | none => rfl
  | some o => rfl

theorem bodyIdAt_updatePositions (s : EngineState) (f : ℕ → Vec → Vec)
    (i : ℕ) : bodyIdAt (updatePositions s f) i = bodyIdAt s i := by
  rw [bodyIdAt, poolObj_updatePositions]
  cases hb : (poolObj s i).body with
  | none => simp [bodyIdAt, hb]
  | some b => simp [bodyIdAt, hb, repositionBody]

theorem updatePositions_good {s : EngineState} (hg : goodState s)
    (f : ℕ → Vec → Vec) : goodState (updatePositions s f) := by
  constructor
  · exact hg.lenLe
  · exact hg.activeNodup
  · intro i hi
    show i < (s.pool.map _).length
    rw [List.length_map]
    exact hg.activeValid i hi
  · intro i hi
    rw [poolObj_updatePositions]
    exact hg.activeFlag i hi
  · intro i hi
    obtain ⟨b, hb, hbd⟩ := hg.activeHasBody i hi
    refine ⟨repositionBody f b, ?_, ?_⟩
    · rw [poolObj_updatePositions]
      simp [hb]
    · show _ ∈ s.dynamicBodies.map (repositionBody f)
      exact List.mem_map_of_mem _ hbd
  · have : s.activeObjects.map (bodyIdAt (updatePositions s f)) =
        s.activeObjects.map (bodyIdAt s) :=
      List.map_congr_left (fun i _ => bodyIdAt_updatePositions s f i)
    rw [show (updatePositions s f).activeObjects = s.activeObjects from rfl,
      this]
    exact hg.activeIdsNodup
  · show ((s.dynamicBodies.map (repositionBody f)).map MBody.id).Nodup
    rw [List.map_map]
    have : (MBody.id ∘ repositionBody f) = MBody.id := by
      funext b; rfl
    rw [this]
    exact hg.dynIdsNodup
  · intro b hb
    obtain ⟨b0, hb0, hbeq⟩ := List.mem_map.mp hb
    rw [← hbeq]
    exact hg.dynNonStatic b0 hb0
  · intro b hb
    obtain ⟨b0, hb0, hbeq⟩ := List.mem_map.mp hb
    rw [← hbeq]
    exact hg.dynIdsLt b0 hb0

theorem goodState_congr {s t : EngineState} (hg : goodState s)
    (hdyn : t.dynamicBodies = s.dynamicBodies) (hpool : t.pool = s.pool)
    (hact : t.activeObjects = s.activeObjects) (hnext : t.nextId = s.nextId) :
    goodState t := by
  have hobj : ∀ i, poolObj t i = poolObj s i := by
    intro i; simp only [poolObj, hpool]
  have hids : ∀ i, bodyIdAt t i = bodyIdAt s i := by
    intro i; simp only [bodyIdAt, hobj]
  constructor
  · rw [hact]; exact hg.lenLe
  · rw [hact]; exact hg.activeNodup
  · intro i hi; rw [hact] at hi; rw [hpool]; exact hg.activeValid i hi
  · intro i hi; rw [hact] at hi; rw [hobj]; exact hg.activeFlag i hi
  · intro i hi; rw [hact] at hi; rw [hobj, hdyn]; exact hg.activeHasBody i hi
  · rw [hact, List.map_congr_left (fun i _ => hids i)]
    exact hg.activeIdsNodup
  · rw [hdyn]; exact hg.dynIdsNodup
  · rw [hdyn]; exact hg.dynNonStatic
  · rw [hdyn, hnext]; exact hg.dynIdsLt

theorem goodState_appendDyn {s t : EngineState} (hg : goodState s) {b : MBody}
    (hid : b.id = s.nextId) (hstatic : b.isStatic = false)
    (hdyn : t.dynamicBodies = s.dynamicBodies ++ [b])
    (hpool : t.pool = s.pool) (hact : t.activeObjects = s.activeObjects)
    (hnext : t.nextId = s.nextId + 1) :
    goodState t := by
  have hobj : ∀ i, poolObj t i = poolObj s i := by
    intro i; simp only [poolObj, hpool]
  have hids : ∀ i, bodyIdAt t i = bodyIdAt s i := by
    intro i; simp only [bodyIdAt, hobj]
  constructor
  · rw [hact]; exact hg.lenLe
  · rw [hact]; exact hg.activeNodup
  · intro i hi; rw [hact] at hi; rw [hpool]; exact hg.activeValid i hi
  · intro i hi; rw [hact] at hi; rw [hobj]; exact hg.activeFlag i hi
  · intro i hi
    rw [hact] at hi
    obtain ⟨b0, hb0, hbd⟩ := hg.activeHasBody i hi
    exact ⟨b0, by rw [hobj]; exact hb0,
      by rw [hdyn]; exact List.mem_append_left _ hbd⟩
  · rw [hact, List.map_congr_left (fun i _ => hids i)]
    exact hg.activeIdsNodup
  · rw [hdyn, List.map_append]
    simp only [List.map_cons, List.map_nil]
    rw [List.nodup_append]
    refine ⟨hg.dynIdsNodup, List.nodup_singleton _, ?_⟩
    intro a ha hb2
    simp only [List.mem_singleton] at hb2
    obtain ⟨b0, hb0, hba⟩ := List.mem_map.mp ha
    have := hg.dynIdsLt b0 hb0
    omega
  · intro b0 hb0
    rw [hdyn] at hb0
    rcases List.mem_append.mp hb0 with h | h
    · exact hg.dynNonStatic b0 h
    · simp only [List.mem_singleton] at h
      rw [h]; exact hstatic
  · intro b0 hb0
    rw [hdyn] at hb0
    rw [hnext]
    rcases List.mem_append.mp hb0 with h | h
    · have := hg.dynIdsLt b0 h
      omega
    · simp only [List.mem_singleton] at h
      rw [h, hid]
      omega

end PhysicsEngine

namespace PhysicsEngine

theorem createCircle_good {s : EngineState} (hg : goodState s)
    (start endP : Vec) (dist : ℚ) :
    goodState (createCircle s start endP dist).2 :=
  goodState_appendDyn hg rfl rfl rfl rfl rfl rfl

theorem createBox_good {s : EngineState} (hg : goodState s)
    (start endP : Vec) : goodState (createBox s start endP).2 :=
  goodState_appendDyn hg rfl rfl rfl rfl rfl rfl

theorem createPolygon_good {s : EngineState} (hg : goodState s)
    (start endP : Vec) (dist : ℚ) (sides : ℕ) (polyVerts : List Vec) :
    goodState (createPolygon s start endP dist sides polyVerts).2 :=
  goodState_appendDyn hg rfl rfl rfl rfl rfl rfl

theorem createLine_good {s : EngineState} (hg : goodState s)
    (start endP : Vec) (dist : ℚ) (u : Vec) :
    goodState (createLine s start endP dist u).2 :=
  goodState_appendDyn hg rfl rfl rfl rfl rfl rfl

theorem destroyEngine_good (s : EngineState) :
    goodState (destroyEngine s) := by
  constructor <;> simp [destroyEngine]

theorem forceRemoveBody_good {s : EngineState} (hg : goodState s) (bid : ℕ) :
    goodState (forceRemoveBody s bid) :=
  goodState_congr hg rfl rfl rfl rfl

theorem resetPhysicsState_good {s : EngineState} (hg : goodState s) :
    goodState (resetPhysicsState s) :=
  goodState_congr hg rfl rfl rfl rfl

theorem resize_good {s : EngineState} (hg : goodState s) (width height : ℚ) :
    goodState (resize s width height) :=
  goodState_congr hg rfl rfl rfl rfl

theorem moveBody_good {s : EngineState} (hg : goodState s) (bid : ℕ)
    (newPos : Vec) : goodState (moveBody s bid newPos) :=
  updatePositions_good hg _

/-- Every reachable engine state satisfies the structural invariant. -/
theorem reachable_goodState {s : EngineState} (h : Reachable s) :
    goodState s := by
  induction h with
  | init width height => exact goodState_initState width height
  | step op _ ih =>
    cases op with
    | spawn point now rnd => exact spawnObjectAtPoint_good ih point now rnd
    | recycleOldest => exact recycleOldestObject_good ih
    | recycleOffscreen w h2 => exact recycleOffscreenBodies_good ih w h2
    | destroy b => exact destroyBody_good ih b
    | drawCircle a b d => exact createCircle_good ih a b d
    | drawBox a b => exact createBox_good ih a b
    | drawPolygon a b d n v => exact createPolygon_good ih a b d n v
    | drawLine a b d u => exact createLine_good ih a b d u
    | move f => exact updatePositions_good ih f
    | teardown => exact destroyEngine_good _
    | forceRemove bid => exact forceRemoveBody_good ih bid
    | reset => exact resetPhysicsState_good ih
    | resizeTo w h2 => exact resize_good ih w h2

end PhysicsEngine

namespace PhysicsEngine

theorem spawnObjectAtPoint_rateLimited {s : EngineState} {p : Vec} {t : ℕ}
    {r : SpawnRandom} (h : t - s.lastSpawnTime < config.spawnInterval) :
    spawnObjectAtPoint s p t r = (none, s) := by
  unfold spawnObjectAtPoint
  rw [if_pos h]

theorem spawnObjectAtPoint_some_lastSpawnTime {s : EngineState} {p : Vec}
    {t : ℕ} {r : SpawnRandom} {i : ℕ} {s1 : EngineState}
    (h : spawnObjectAtPoint s p t r = (some i, s1)) :
    s1.lastSpawnTime = t ∧ ∃ l, s1.activeObjects = l ++ [i] := by
  unfold spawnObjectAtPoint at h
  by_cases hrate : t - s.lastSpawnTime < config.spawnInterval
  · rw [if_pos hrate] at h
    simp at h
  · rw [if_neg hrate] at h
    rcases hgop : getObjectFromPool (if config.maxBodies ≤
        s.activeObjects.length then (recycleOldestObject s).2 else s)
      with ⟨rr, s2⟩
    rw [hgop] at h
    cases rr with
    | none => simp at h
    | some i0 =>
      rw [Prod.mk.injEq] at h
      obtain ⟨h1, h2⟩ := h
      have hii : i0 = i := by injection h1
      subst hii
      rw [← h2]
      exact ⟨rfl, ⟨s2.activeObjects, rfl⟩⟩

end PhysicsEngine

open PhysicsEngine

/-- C1: For every reachable engine state, `activeObjects.length ≤ maxBodies`.
`spawnObjectAtPoint` completes the eviction (`recycleOldestObject`: world
removal, `bodies.dynamic` removal, deactivation, `activeObjects` removal)
before inserting the new body, so the bound holds at every observable
state of the transition system. -/
theorem C1_activeObjects_le_maxBodies {s : EngineState} (h : Reachable s) :
    s.activeObjects.length ≤ config.maxBodies :=
  (reachable_goodState h).lenLe

/-- Witness for C1 at a concrete reachable state (after one spawn). -/
theorem C1_witness :
    exampleState1.activeObjects.length ≤ config.maxBodies :=
  C1_activeObjects_le_maxBodies
    (Reachable.step (.spawn ⟨100, 100⟩ 100 exampleRnd) (Reachable.init 800 600))

/-- C2: `recycleOldestObject` returns `null` and changes nothing on an
empty `activeObjects`; otherwise it selects the entry with minimum
`creationTime` — ties broken by insertion order, earliest-inserted wins
(the strict-prefix entries all have strictly greater keys) — removes that
entry's body from the world and from `bodies.dynamic` (first occurrence,
by reference), deactivates it, removes it from `activeObjects` (the new
list is the old one minus that entry, reordered by the in-place sort),
and returns it. -/
theorem C2_recycleOldestObject_spec (s : EngineState) :
    (s.activeObjects = [] → recycleOldestObject s = (none, s)) ∧
    (s.activeObjects ≠ [] →
      ∃ oldest rest,
        firstMinByKey (creationAt s) s.activeObjects = some oldest ∧
        (∀ j ∈ s.activeObjects, creationAt s oldest ≤ creationAt s j) ∧
        (∃ l1 l2, s.activeObjects = l1 ++ oldest :: l2 ∧
          ∀ j ∈ l1, creationAt s oldest < creationAt s j) ∧
        recycleOldestObject s =
          (some oldest,
           { s with
             worldBodies := removeFirstBy
               (fun b => b.id == bodyIdAt s oldest) s.worldBodies,
             dynamicBodies := removeFirstBy
               (fun b => b.id == bodyIdAt s oldest) s.dynamicBodies,
             pool := s.pool.set oldest (poolObj s oldest).deactivate,
             activeObjects := rest }) ∧
        s.activeObjects.Perm (oldest :: rest)) := by
  constructor
  · exact recycleOldestObject_nil
  · intro hne
    cases hsort : sortByKey (creationAt s) s.activeObjects with
    | nil => exact absurd ((sortByKey_eq_nil_iff _ _).mp hsort) hne
    | cons oldest rest =>
      have hfm : firstMinByKey (creationAt s) s.activeObjects = some oldest := by
        have := sortByKey_head? (creationAt s) s.activeObjects
        rw [hsort] at this
        exact this.symm
      exact ⟨oldest, rest, hfm, firstMinByKey_le _ hfm,
        firstMinByKey_earliest _ hfm, recycleOldestObject_cons hsort,
        sortByKey_perm_of_cons hsort⟩

set_option maxRecDepth 4000 in
/-- Witness for C2 at a concrete state with two active objects spawned at
`t = 100` and `t = 200`: the `t = 100` object (slot 0) is selected. -/
theorem C2_witness :
    exampleState2.activeObjects ≠ [] ∧
      (recycleOldestObject exampleState2).1 = some 0 := by
  have hne : exampleState2.activeObjects ≠ [] := by decide
  obtain ⟨oldest, rest, hfm, _, _, hrec, _⟩ :=
    (C2_recycleOldestObject_spec exampleState2).2 hne
  have h0 : firstMinByKey (creationAt exampleState2)
      exampleState2.activeObjects = some 0 := by decide
  rw [h0] at hfm
  have hold : (0 : ℕ) = oldest := by injection hfm
  refine ⟨hne, ?_⟩
  rw [hrec, ← hold]

/-- C3: `spawnObjectAtPoint` returns `null` and changes nothing when less
than `spawnIntervalMs` has elapsed since the previous successful spawn
(a global limit measured from `lastSpawnTime`, which only successful
spawns update); hence of two calls separated by less than the interval
where the first succeeds, the second returns `null` with the state
unchanged (the rejected spawn is dropped, not buffered), and the pair of
calls yields exactly the one object appended by the first. -/
theorem C3_spawn_rate_limit (s : EngineState) (p1 p2 : Vec) (t1 t2 : ℕ)
    (r1 r2 : SpawnRandom) :
    (t1 - s.lastSpawnTime < config.spawnInterval →
      spawnObjectAtPoint s p1 t1 r1 = (none, s)) ∧
    (∀ i s1, spawnObjectAtPoint s p1 t1 r1 = (some i, s1) →
      t2 - t1 < config.spawnInterval →
      spawnObjectAtPoint s1 p2 t2 r2 = (none, s1) ∧
      ∃ l, s1.activeObjects = l ++ [i]) := by
  refine ⟨fun h => spawnObjectAtPoint_rateLimited h, ?_⟩
  intro i s1 hfirst hlt
  obtain ⟨hlast, hl⟩ := spawnObjectAtPoint_some_lastSpawnTime hfirst
  refine ⟨?_, hl⟩
  apply spawnObjectAtPoint_rateLimited
  rw [hlast]
  exact hlt

set_option maxRecDepth 4000 in
/-- Witness for C3: a successful spawn at `t = 100` followed by a call at
`t = 120` (20 ms later, under the 50 ms interval): the second call
returns `null` and leaves the state unchanged. -/
theorem C3_witness :
    spawnObjectAtPoint exampleState1 ⟨200, 200⟩ 120 exampleRnd =
      (none, exampleState1) ∧
    ∃ l, exampleState1.activeObjects = l ++ [0] := by
  have h1 : (spawnObjectAtPoint exampleState0 ⟨100, 100⟩ 100 exampleRnd).1 =
      some 0 := by decide
  have h2 : spawnObjectAtPoint exampleState0 ⟨100, 100⟩ 100 exampleRnd =
      (some 0, exampleState1) := by
    rw [← h1]
    exact rfl
  exact (C3_spawn_rate_limit exampleState0 ⟨100, 100⟩ ⟨200, 200⟩ 100 120
    exampleRnd exampleRnd).2 0 exampleState1 h2 (by decide)

theorem find?_append_cons {q : α → Bool} {pre post : List α} {b : α}
    (hpre : ∀ a ∈ pre, q a = false) (hb : q b = true) :
    (pre ++ b :: post).find? q = some b := by
  induction pre with
  | nil => simp [List.find?_cons_of_pos, hb]
  | cons x xs ih =>
    have hx := hpre x (List.mem_cons_self _ _)
    rw [List.cons_append, List.find?_cons_of_neg _ (by simp [hx])]
    exact ih (fun a ha => hpre a (List.mem_cons_of_mem _ ha))

namespace PhysicsEngine

theorem getBodyAtPoint_contains {s : EngineState} {p : Vec} {b : MBody}
    (h : getBodyAtPoint s p = some b) : isPointInBody b p = true := by
  unfold getBodyAtPoint at h
  cases hf : s.dynamicBodies.find? (fun x => isPointInBody x p) with
  | some b2 =>
    rw [hf] at h
    have hb2 : b2 = b := by injection h
    have h3 := List.find?_some hf
    rw [hb2] at h3
    exact h3
  | none =>
    rw [hf] at h
    have h2 := List.find?_some h
    simp only [Bool.and_eq_true] at h2
    exact h2.2

theorem destroyBody_not_wrapped {s : EngineState} {b : MBody}
    (hfind : s.activeObjects.findIdx? (fun i =>
      ((poolObj s i).body.map (fun x => x.id == b.id)).getD false) = none) :
    destroyBody s (some b) =
      { s with
        dynamicBodies := removeFirstBy (fun x => x.id == b.id) s.dynamicBodies,
        activeBody := if s.activeBody == some b.id then none
          else s.activeBody,
        worldBodies := removeFirstBy (fun x => x.id == b.id) s.worldBodies } := by
  simp only [destroyBody]
  rw [hfind]

end PhysicsEngine

theorem spawnType_one : spawnType 1 = "circle" := by
  norm_num [spawnType, getWeightedRandomTypeIndex, getWeightedRandomTypeIndex.go]

set_option maxRecDepth 4000 in
theorem exampleState1_dyn :
    exampleState1.dynamicBodies =
      [PhysicsObject.initBody "circle" ⟨100, 100⟩ 20 [] 3] := by
  have h : exampleState1.dynamicBodies =
      [PhysicsObject.initBody (spawnType 1) ⟨100, 100⟩ 20 [] 3] := rfl
  rw [h, spawnType_one]

/-- C6: for a circle body of radius `r` centred at `(cx, cy)` present in
`bodies.dynamic`, `getBodyAtPoint` returns it for every point at squared
distance `≤ r²` (boundary inclusive; the source's `Math.sqrt(d²) ≤ r`)
provided no body earlier in the dynamic scan order contains the point; it
never returns it for a point at squared distance `> r²`; and any returned
body contains the point (dynamic bodies are scanned first, then the
remaining non-static world bodies, first hit in scan order). -/
theorem C6_hit_test_circle (s : EngineState) (p : Vec) (b : MBody) (r : ℚ)
    (pre post : List MBody)
    (hdyn : s.dynamicBodies = pre ++ b :: post)
    (hr : b.circleRadius = some r) :
    (((p.x - b.position.x) * (p.x - b.position.x) +
        (p.y - b.position.y) * (p.y - b.position.y) ≤ r * r) →
      (∀ a ∈ pre, isPointInBody a p = false) →
      getBodyAtPoint s p = some b) ∧
    (∀ b2, getBodyAtPoint s p = some b2 → isPointInBody b2 p = true) ∧
    (¬((p.x - b.position.x) * (p.x - b.position.x) +
        (p.y - b.position.y) * (p.y - b.position.y) ≤ r * r) →
      getBodyAtPoint s p ≠ some b) := by
  refine ⟨?_, fun b2 h => getBodyAtPoint_contains h, ?_⟩
  · intro hle hpre
    have hb : isPointInBody b p = true := by
      unfold isPointInBody
      rw [hr]
      simpa using hle
    unfold getBodyAtPoint
    rw [hdyn, find?_append_cons hpre hb]
  · intro hgt hsome
    have h2 := getBodyAtPoint_contains hsome
    unfold isPointInBody at h2
    rw [hr] at h2
    simp only [decide_eq_true_eq] at h2
    exact hgt h2

set_option maxRecDepth 4000 in
/-- Witness for C6: in the engine after one circle spawn (center
`(100, 100)`, radius 20), the point `(110, 100)` (distance 10 ≤ 20)
hit-tests to that body. -/
theorem C6_witness :
    getBodyAtPoint exampleState1 ⟨110, 100⟩ =
      some (PhysicsObject.initBody "circle" ⟨100, 100⟩ 20 [] 3) := by
  have hdyn : exampleState1.dynamicBodies =
      [] ++ PhysicsObject.initBody "circle" ⟨100, 100⟩ 20 [] 3 :: [] := by
    rw [exampleState1_dyn]; rfl
  have hr : (PhysicsObject.initBody "circle" ⟨100, 100⟩ 20 [] 3).circleRadius =
      some 20 := by decide
  exact (C6_hit_test_circle exampleState1 ⟨110, 100⟩ _ 20 [] [] hdyn hr).1
    (by norm_num [PhysicsObject.initBody]) (by simp)

/-- C10: `getBodyAtPoint` never returns a static body on a reachable
state: its result is `null` or a body with `isStatic = false`, so the
ground and wall boundary bodies can never be selected by pointer
hit-testing. -/
theorem C10_getBodyAtPoint_nonstatic {s : EngineState} (hr : Reachable s)
    (p : Vec) (b : MBody) (h : getBodyAtPoint s p = some b) :
    b.isStatic = false := by
  unfold getBodyAtPoint at h
  cases hf : s.dynamicBodies.find? (fun x => isPointInBody x p) with
  | some b2 =>
    rw [hf] at h
    have hb2 : b2 = b := by injection h
    exact (reachable_goodState hr).dynNonStatic b
      (hb2 ▸ List.mem_of_find?_eq_some hf)
  | none =>
    rw [hf] at h
    have h2 := List.find?_some h
    simp only [Bool.and_eq_true, Bool.not_eq_true'] at h2
    exact h2.1.1

set_option maxRecDepth 4000 in
/-- Witness for C10: the body returned at `(110, 100)` in the
one-circle reachable state is non-static. -/
theorem C10_witness :
    (PhysicsObject.initBody "circle" ⟨100, 100⟩ 20 [] 3).isStatic = false := by
  refine C10_getBodyAtPoint_nonstatic
    (Reachable.step (.spawn ⟨100, 100⟩ 100 exampleRnd)
      (Reachable.init 800 600)) ⟨110, 100⟩ _ ?_
  show getBodyAtPoint exampleState1 ⟨110, 100⟩ = _
  have hr : (PhysicsObject.initBody "circle" ⟨100, 100⟩ 20 [] 3).circleRadius =
      some 20 := by decide
  have hb : isPointInBody (PhysicsObject.initBody "circle" ⟨100, 100⟩ 20 [] 3)
      ⟨110, 100⟩ = true := by
    unfold isPointInBody
    rw [hr]
    norm_num [PhysicsObject.initBody]
  have hf : List.find? (fun b => isPointInBody b ⟨110, 100⟩)
      [PhysicsObject.initBody "circle" ⟨100, 100⟩ 20 [] 3] =
      some (PhysicsObject.initBody "circle" ⟨100, 100⟩ 20 [] 3) := by
    simp only [List.find?]
    rw [hb]
  unfold getBodyAtPoint
  rw [exampleState1_dyn, hf]

/-- C9: `destroyBody` on `null` is a no-op, and on a body not present in
`bodies.dynamic` (in a reachable state) it returns normally — the source
wraps the whole removal in `try`/`catch`, and the embedded function is
total — leaving `activeObjects` (and `bodies.dynamic` and the pool)
unchanged. -/
theorem C9_destroyBody_absent {s : EngineState} (hr : Reachable s) :
    destroyBody s none = s ∧
    (∀ b : MBody, (∀ d ∈ s.dynamicBodies, d.id ≠ b.id) →
      (destroyBody s (some b)).activeObjects = s.activeObjects ∧
      (destroyBody s (some b)).dynamicBodies = s.dynamicBodies ∧
      (destroyBody s (some b)).pool = s.pool) := by
  refine ⟨rfl, ?_⟩
  intro b hb
  have hg := reachable_goodState hr
  have hfind : s.activeObjects.findIdx? (fun i =>
      ((poolObj s i).body.map (fun x => x.id == b.id)).getD false) = none := by
    rw [List.findIdx?_eq_none_iff]
    intro i hi
    obtain ⟨bi, hbi, hbid⟩ := hg.activeHasBody i hi
    rw [hbi]
    simp only [Option.map_some', Option.getD_some, beq_eq_false_iff_ne, ne_eq]
    exact hb bi hbid
  rw [destroyBody_not_wrapped hfind]
  refine ⟨rfl, ?_, rfl⟩
  show removeFirstBy (fun x => x.id == b.id) s.dynamicBodies = s.dynamicBodies
  apply removeFirstBy_eq_self
  intro a ha
  simp only [beq_eq_false_iff_ne, ne_eq]
  exact hb a ha

set_option maxRecDepth 4000 in
/-- Witness for C9: destroying a body (id 99) absent from the one-circle
reachable state leaves `activeObjects` unchanged. -/
theorem C9_witness :
    (destroyBody exampleState1
      (some { id := 99, position := ⟨0, 0⟩, isStatic := false,
              circleRadius := none, vertices := [],
              label := "" })).activeObjects = exampleState1.activeObjects := by
  refine ((C9_destroyBody_absent (Reachable.step (.spawn ⟨100, 100⟩ 100
    exampleRnd) (Reachable.init 800 600))).2 _ ?_).1
  have hd : ∀ d ∈ exampleState1.dynamicBodies, d.id ≠ (99 : ℕ) := by
    rw [exampleState1_dyn]; decide
  exact fun d hdm => hd d hdm

/-- C7 counterexample: a non-static body lying exactly at the explosion
centre (distance 0 < radius) receives the zero force vector, not the
claimed magnitude `F × (1 − 0/R) = F`: the `(distance || 1)`
normalization maps the zero offset to the zero direction. -/
theorem C7_counterexample :
    applyExplosionForce
      [{ id := 5, position := ⟨50, 50⟩, isStatic := false,
         circleRadius := some 10, vertices := [], label := "" }]
      ⟨50, 50⟩ (fun _ => 0) (1/200) 100 = [(5, ⟨0, 0⟩)] ∧
    (1/200 : ℚ) * (1 - 0 / 100) ≠ 0 := by
  constructor
  · show List.filterMap _ _ = _
    norm_num [applyExplosionForce, explosionForceOn, List.filterMap]
  · norm_num

/-- C7 amended: `applyExplosionForce(position, F, R)` applies, to every
non-static body at distance `0 < d < R` from `position`, the force
`(dx/d, dy/d) · F(1 − d/R)` — magnitude `F(1 − d/R)`, directed away from
`position` — and no force to bodies at distance `≥ R`; the magnitude is
strictly decreasing in `d` on `(0, R)`, so a body at `0.1·R` receives
strictly more force than one at `0.9·R`.  A body at exactly `d = 0`
receives the zero vector (not magnitude `F`), because the direction
normalization `(dx/(d‖1), dy/(d‖1))` maps the zero offset to zero. -/
theorem C7_explosion_decay_amended (bodyPos center : Vec) (d F R : ℚ)
    (hd : 0 < d) (hdR : d < R)
    (hdist : d * d = (bodyPos.x - center.x) * (bodyPos.x - center.x) +
      (bodyPos.y - center.y) * (bodyPos.y - center.y))
    (hF : 0 < F) :
    (explosionForceOn bodyPos center d F R =
      ⟨(bodyPos.x - center.x) / d * (F * (1 - d / R)),
       (bodyPos.y - center.y) / d * (F * (1 - d / R))⟩) ∧
    ((explosionForceOn bodyPos center d F R).x ^ 2 +
      (explosionForceOn bodyPos center d F R).y ^ 2 =
        (F * (1 - d / R)) ^ 2) ∧
    (∀ b2 : MBody, b2.isStatic = false →
      ∀ dOf : ℕ → ℚ, R ≤ dOf b2.id →
        applyExplosionForce [b2] center dOf F R = []) ∧
    (∀ d1 d2 : ℚ, 0 < d1 → d1 < d2 → d2 < R →
      F * (1 - d2 / R) < F * (1 - d1 / R)) := by
  have hR : 0 < R := lt_trans hd hdR
  have hform : explosionForceOn bodyPos center d F R =
      ⟨(bodyPos.x - center.x) / d * (F * (1 - d / R)),
       (bodyPos.y - center.y) / d * (F * (1 - d / R))⟩ := by
    unfold explosionForceOn
    have hmin : min 1 (d / R) = d / R := by
      apply min_eq_right
      rw [div_le_one hR]
      exact le_of_lt hdR
    rw [hmin, if_neg (ne_of_gt hd)]
  have hdne : d ≠ 0 := ne_of_gt hd
  refine ⟨hform, ?_, ?_, ?_⟩
  · rw [hform]
    show ((bodyPos.x - center.x) / d * (F * (1 - d / R))) ^ 2 +
      ((bodyPos.y - center.y) / d * (F * (1 - d / R))) ^ 2 = _
    have h1 : ((bodyPos.x - center.x) / d * (F * (1 - d / R))) ^ 2 +
        ((bodyPos.y - center.y) / d * (F * (1 - d / R))) ^ 2 =
        ((bodyPos.x - center.x) * (bodyPos.x - center.x) +
          (bodyPos.y - center.y) * (bodyPos.y - center.y)) / (d * d) *
          (F * (1 - d / R)) ^ 2 := by
      field_simp
      ring
    rw [h1, ← hdist, div_self (mul_ne_zero hdne hdne), one_mul]
  · intro b2 hb2 dOf hge
    unfold applyExplosionForce
    simp [hb2, not_lt.mpr hge]
  · intro d1 d2 h1 h12 h2R
    have hdiv : d1 / R < d2 / R := (div_lt_div_iff_of_pos_right hR).mpr h12
    exact mul_lt_mul_of_pos_left (sub_lt_sub_left hdiv 1) hF

/-- Witness for C7: a body at `(60, 50)` and an explosion at `(50, 50)`
(distance 10 = 0.1·R, R = 100, F = 1/200): the force matches the closed
form, and the magnitude at distance 90 = 0.9·R is strictly smaller. -/
theorem C7_witness :
    explosionForceOn ⟨60, 50⟩ ⟨50, 50⟩ 10 (1/200) 100 =
      ⟨((60 : ℚ) - 50) / 10 * ((1/200) * (1 - 10 / 100)),
       ((50 : ℚ) - 50) / 10 * ((1/200) * (1 - 10 / 100))⟩ ∧
    (1/200 : ℚ) * (1 - 90 / 100) < (1/200) * (1 - 10 / 100) := by
  have h := C7_explosion_decay_amended ⟨60, 50⟩ ⟨50, 50⟩ 10 (1/200) 100
    (by norm_num) (by norm_num) (by norm_num) (by norm_num)
  exact ⟨h.1, h.2.2.2 10 90 (by norm_num) (by norm_num) (by norm_num)⟩

set_option maxRecDepth 4000 in
/-- C8 counterexample: in the reachable state obtained by spawning one
object and then recycling it, pool slot 0 has `active = false` yet its
body handle is still present — `deactivate` does not null the handle, so
"`active = false` implies `bodyHandle` null" fails. -/
theorem C8_counterexample :
    Reachable exampleState1R ∧
    (exampleState1R.pool.getD 0 default).active = false ∧
    (exampleState1R.pool.getD 0 default).body ≠ none := by
  refine ⟨?_, by decide, by decide⟩
  exact Reachable.step .recycleOldest
    (Reachable.step (.spawn ⟨100, 100⟩ 100 exampleRnd)
      (Reachable.init 800 600))

/-- C8 amended: a slot's `body` handle is null only before its first
`init`: the constructor produces `body = null, active = false`; `init`
always stores a fresh valid body (and sets `active = true`) before
returning the slot; `deactivate` clears only the active flag and keeps
the handle, so a deactivated slot retains its (logically removed) body. -/
theorem C8_pool_slot_lifecycle :
    (PhysicsObject.mkNew.body = none ∧ PhysicsObject.mkNew.active = false) ∧
    (∀ (o : PhysicsObject) (type : String) (pos : Vec) (size : ℚ)
        (sides : ℕ) (verts : List Vec) (newId now : ℕ),
      (o.init type pos size sides verts newId now).body =
          some (PhysicsObject.initBody type pos size verts newId) ∧
        (o.init type pos size sides verts newId now).active = true) ∧
    (∀ o : PhysicsObject, o.deactivate.active = false ∧
      o.deactivate.body = o.body) :=
  ⟨⟨rfl, rfl⟩, fun _ _ _ _ _ _ _ _ => ⟨rfl, rfl⟩, fun _ => ⟨rfl, rfl⟩⟩

theorem interval_corner (a b w : ℚ) (hw : w = |b - a|) :
    min a b = (a + (b - a) / 2) - w / 2 ∧
    min a b + w = (a + (b - a) / 2) + w / 2 := by
  rcases le_total a b with h | h
  · rw [min_eq_left h, hw, abs_of_nonneg (by linarith)]
    constructor <;> ring
  · rw [min_eq_right h, hw, abs_of_nonpos (by linarith)]
    constructor <;> ring

/-- C4 counterexample: for the box tool with the degenerate drag
`start = end = (0, 0)`, the committed body is the 15×15 rectangle
(minimum-size clamp) centred at the drag midpoint `(0, 0)`, with corners
at `±7.5`, while the preview keeps the unclamped top-left corner `(0, 0)`
with the clamped 15×15 size: the two describe different rectangles, so
the preview geometry is not numerically identical to the body's. -/
theorem C4_counterexample :
    createShapePreview "box" ⟨0, 0⟩ ⟨0, 0⟩ 0 0 (fun _ => ⟨1, 0⟩) =
      some (.box 0 0 15 15) ∧
    (createBox exampleState0 ⟨0, 0⟩ ⟨0, 0⟩).1.vertices =
      [⟨-(15/2 : ℚ), -(15/2 : ℚ)⟩, ⟨15/2, -(15/2 : ℚ)⟩, ⟨(15/2 : ℚ), 15/2⟩,
       ⟨-(15/2 : ℚ), 15/2⟩] ∧
    previewBoxVertices 0 0 15 15 ≠
      [⟨-(15/2 : ℚ), -(15/2 : ℚ)⟩, ⟨15/2, -(15/2 : ℚ)⟩, ⟨(15/2 : ℚ), 15/2⟩,
       ⟨-(15/2 : ℚ), 15/2⟩] := by
  refine ⟨?_, ?_, ?_⟩
  · norm_num [createShapePreview, config.minSize, config.maxSize]
    intro h
    exact absurd h (by decide)
  · norm_num [createBox, rectVertices, config.minSize, config.maxSize]
  · norm_num [previewBoxVertices]

/-- C4 amended: preview/commit parity holds for the circle tool (same
centre and identically clamped radius).  For the box tool the clamped
width/height agree, but the preview's position is the top-left corner of
the *unclamped* drag rectangle while the body is centred at the drag
midpoint, so the described rectangles coincide exactly when `|Δx|` and
`|Δy|` already lie within `[minSize, 3·maxSize]` (and differ when
clamping applies — see the counterexample).  The line preview carries the
raw endpoints with no length clamp (while `createLine` clamps length to
`5·maxSize`), and the polygon preview draws its side count independently
of `createPolygon`, so parity is not guaranteed for those tools. -/
theorem C4_preview_commit_parity_amended (s : EngineState)
    (start endP : Vec) (d : ℚ) (sides : ℕ) (trig : ℕ → Vec) :
    (createShapePreview "circle" start endP d sides trig =
        some (.circle start.x start.y
          (max config.minSize (min d (config.maxSize * 2)))) ∧
      (createCircle s start endP d).1.circleRadius =
        some (max config.minSize (min d (config.maxSize * 2))) ∧
      (createCircle s start endP d).1.position = start) ∧
    (createShapePreview "box" start endP d sides trig =
        some (.box (min start.x endP.x) (min start.y endP.y)
          (max config.minSize (min |endP.x - start.x| (config.maxSize * 3)))
          (max config.minSize
            (min |endP.y - start.y| (config.maxSize * 3)))) ∧
      (createBox s start endP).1.vertices =
        rectVertices ⟨start.x + (endP.x - start.x) / 2,
            start.y + (endP.y - start.y) / 2⟩
          (max config.minSize (min |endP.x - start.x| (config.maxSize * 3)))
          (max config.minSize
            (min |endP.y - start.y| (config.maxSize * 3)))) ∧
    (config.minSize ≤ |endP.x - start.x| →
      |endP.x - start.x| ≤ config.maxSize * 3 →
      config.minSize ≤ |endP.y - start.y| →
      |endP.y - start.y| ≤ config.maxSize * 3 →
      previewBoxVertices (min start.x endP.x) (min start.y endP.y)
        (max config.minSize (min |endP.x - start.x| (config.maxSize * 3)))
        (max config.minSize (min |endP.y - start.y| (config.maxSize * 3))) =
        (createBox s start endP).1.vertices) ∧
    (createShapePreview "line" start endP d sides trig =
      some (.line start.x start.y endP.x endP.y 5)) := by
  refine ⟨⟨rfl, rfl, rfl⟩, ⟨rfl, rfl⟩, ?_, rfl⟩
  intro hx1 hx2 hy1 hy2
  have hWx : max config.minSize (min |endP.x - start.x| (config.maxSize * 3)) =
      |endP.x - start.x| := by
    rw [min_eq_left hx2, max_eq_right hx1]
  have hWy : max config.minSize (min |endP.y - start.y| (config.maxSize * 3)) =
      |endP.y - start.y| := by
    rw [min_eq_left hy2, max_eq_right hy1]
  show previewBoxVertices _ _ _ _ =
    rectVertices ⟨start.x + (endP.x - start.x) / 2,
      start.y + (endP.y - start.y) / 2⟩ _ _
  rw [hWx, hWy]
  obtain ⟨hc1, hc2⟩ := interval_corner start.x endP.x _ rfl
  obtain ⟨hc3, hc4⟩ := interval_corner start.y endP.y _ rfl
  simp only [previewBoxVertices, rectVertices, List.cons.injEq, and_true,
    Vec.mk.injEq]
  and_intros <;> linarith [hc1, hc2, hc3, hc4]

/-- Witness for C4 (amended): for the in-range drag `(0,0) → (30,20)`
the preview rectangle and the committed box describe the same corners. -/
theorem C4_witness :
    previewBoxVertices (min (0 : ℚ) 30) (min (0 : ℚ) 20)
      (max config.minSize (min |(30 : ℚ) - 0| (config.maxSize * 3)))
      (max config.minSize (min |(20 : ℚ) - 0| (config.maxSize * 3))) =
      (createBox exampleState0 ⟨0, 0⟩ ⟨30, 20⟩).1.vertices := by
  exact (C4_preview_commit_parity_amended exampleState0 ⟨0, 0⟩ ⟨30, 20⟩ 0 0
      (fun _ => (⟨1, 0⟩ : Vec))).2.2.1
    (by norm_num [config.minSize]) (by norm_num [config.maxSize])
    (by norm_num [config.minSize]) (by norm_num [config.maxSize])

theorem getElem_not_mem_take {l : List α} {k : ℕ} (h : k < l.length)
    (hnd : l.Nodup) : l[k] ∉ l.take k := by
  intro hmem
  have hsplit : l.take k ++ l.drop k = l := List.take_append_drop k l
  have hnd2 : (l.take k ++ l.drop k).Nodup := by rw [hsplit]; exact hnd
  rw [List.nodup_append] at hnd2
  exact hnd2.2.2 hmem
    (by rw [List.drop_eq_getElem_cons h]; exact List.mem_cons_self _ _)

namespace PhysicsEngine

theorem recycleAt_eq {s : EngineState} {idx poolIdx : ℕ}
    (h : s.activeObjects[idx]? = some poolIdx) :
    recycleAt s idx = { s with
      worldBodies :=
        removeFirstBy (fun b => b.id == bodyIdAt s poolIdx) s.worldBodies,
      dynamicBodies :=
        removeFirstBy (fun b => b.id == bodyIdAt s poolIdx) s.dynamicBodies,
      pool := s.pool.set poolIdx (poolObj s poolIdx).deactivate,
      activeObjects := s.activeObjects.eraseIdx idx } := by
  unfold recycleAt
  rw [h]

theorem poolObj_set_deact {s t : EngineState} {a : ℕ} (ha : a < s.pool.length)
    (hp : t.pool = s.pool.set a (poolObj s a).deactivate) (j : ℕ) :
    poolObj t j = if j = a then (poolObj s a).deactivate else poolObj s j := by
  simp only [poolObj, hp]
  by_cases hja : j = a
  · subst hja
    rw [if_pos rfl]
    exact getD_set_self _ _ ha
  · rw [if_neg hja]
    exact getD_set_ne _ _ hja

theorem activePos_of_set_deact {s t : EngineState} {a : ℕ}
    (ha : a < s.pool.length)
    (hp : t.pool = s.pool.set a (poolObj s a).deactivate) (j : ℕ) :
    activePos t j = activePos s j := by
  rw [activePos, activePos, poolObj_set_deact ha hp]
  by_cases hja : j = a
  · rw [if_pos hja, hja]
    rfl
  · rw [if_neg hja]

theorem bodyIdAt_of_set_deact {s t : EngineState} {a : ℕ}
    (ha : a < s.pool.length)
    (hp : t.pool = s.pool.set a (poolObj s a).deactivate) (j : ℕ) :
    bodyIdAt t j = bodyIdAt s j := by
  rw [bodyIdAt, bodyIdAt, poolObj_set_deact ha hp]
  by_cases hja : j = a
  · rw [if_pos hja, hja]
    rfl
  · rw [if_neg hja]

end PhysicsEngine

namespace PhysicsEngine

/-- Complete characterization of the `recycleOffscreenBodies` processing
loop after the first `k` collected (descending) indices: the surviving
prefix is the filter of the scanned prefix, every off-screen slot is
deactivated exactly once, and the dynamic/world mirrors lose the
first occurrence of each recycled body (in processing order). -/
theorem sweepFrom_spec (w h : ℚ) :
    ∀ (k : ℕ) (s : EngineState), k ≤ s.activeObjects.length →
      s.activeObjects.Nodup →
      (∀ i ∈ s.activeObjects, i < s.pool.length) →
      (sweepFrom s w h k).activeObjects =
        (s.activeObjects.take k).filter
          (fun j => !offscreenTest (activePos s j) w h) ++
        s.activeObjects.drop k ∧
      (∀ j : ℕ, poolObj (sweepFrom s w h k) j =
        if j ∈ offSlots s w h k then (poolObj s j).deactivate
        else poolObj s j) ∧
      (sweepFrom s w h k).dynamicBodies =
        removeByIds (((offSlots s w h k).reverse).map (bodyIdAt s))
          s.dynamicBodies ∧
      (sweepFrom s w h k).worldBodies =
        removeByIds (((offSlots s w h k).reverse).map (bodyIdAt s))
          s.worldBodies ∧
      (sweepFrom s w h k).nextId = s.nextId := by
  intro k
  induction k with
  | zero =>
    intro s _ _ _
    refine ⟨?_, ?_, rfl, rfl, rfl⟩
    · simp [sweepFrom]
    · intro j
      simp [sweepFrom, offSlots]
  | succ k ih =>
    intro s hk hnd hval
    have hklen : k < s.activeObjects.length := hk
    have hgetD : s.activeObjects.getD k 0 = s.activeObjects[k] :=
      List.getD_eq_getElem _ _ hklen
    obtain ⟨a, ha⟩ : ∃ a, s.activeObjects.getD k 0 = a := ⟨_, rfl⟩
    have haelem : s.activeObjects[k] = a := by rw [← hgetD, ha]
    have hget : s.activeObjects[k]? = some a := by
      rw [← haelem]
      exact List.getElem?_eq_getElem hklen
    have hamem : a ∈ s.activeObjects := by
      rw [← haelem]
      exact List.getElem_mem hklen
    have hrange : (List.range (k+1)).reverse = k :: (List.range k).reverse := by
      rw [List.range_succ, List.reverse_append]
      rfl
    have htake : s.activeObjects.take (k+1) =
        s.activeObjects.take k ++ [a] := by
      rw [List.take_succ, hget]
      rfl
    have hanotin : a ∉ s.activeObjects.take k := by
      rw [← haelem]
      exact getElem_not_mem_take hklen hnd
    by_cases hoff : offscreenTest (activePos s a) w h = true
    · -- the k-th active object is off-screen and is recycled first
      have haval : a < s.pool.length := hval a hamem
      have hs1 : recycleAt s k = { s with
          worldBodies :=
            removeFirstBy (fun b => b.id == bodyIdAt s a) s.worldBodies,
          dynamicBodies :=
            removeFirstBy (fun b => b.id == bodyIdAt s a) s.dynamicBodies,
          pool := s.pool.set a (poolObj s a).deactivate,
          activeObjects := s.activeObjects.eraseIdx k } := recycleAt_eq hget
      have hact1 : (recycleAt s k).activeObjects =
          s.activeObjects.take k ++ s.activeObjects.drop (k+1) := by
        rw [hs1]
        exact List.eraseIdx_eq_take_drop_succ _ _
      have hpool1 : (recycleAt s k).pool =
          s.pool.set a (poolObj s a).deactivate := by
        rw [hs1]
      have hdyn1 : (recycleAt s k).dynamicBodies =
          removeFirstBy (fun b => b.id == bodyIdAt s a) s.dynamicBodies := by
        rw [hs1]
      have hworld1 : (recycleAt s k).worldBodies =
          removeFirstBy (fun b => b.id == bodyIdAt s a) s.worldBodies := by
        rw [hs1]
      have hnext1 : (recycleAt s k).nextId = s.nextId := by
        rw [hs1]
      have hpos1 : ∀ j, activePos (recycleAt s k) j = activePos s j :=
        activePos_of_set_deact haval hpool1
      have hid1 : ∀ j, bodyIdAt (recycleAt s k) j = bodyIdAt s j :=
        bodyIdAt_of_set_deact haval hpool1
      have hlen1 : k ≤ (recycleAt s k).activeObjects.length := by
        rw [hact1]
        simp only [List.length_append, List.length_take, List.length_drop]
        omega
      have hnd1 : (recycleAt s k).activeObjects.Nodup := by
        rw [hs1]
        exact (List.eraseIdx_sublist _ _).nodup hnd
      have hval1 : ∀ i ∈ (recycleAt s k).activeObjects,
          i < (recycleAt s k).pool.length := by
        intro i hi
        rw [hpool1, List.length_set]
        apply hval
        rw [hs1] at hi
        exact (List.eraseIdx_sublist _ _).subset hi
      have hgetD1 : ∀ i, i < k →
          (recycleAt s k).activeObjects.getD i 0 =
            s.activeObjects.getD i 0 := by
        intro i hik
        rw [hact1, List.getD_eq_getElem?_getD, List.getD_eq_getElem?_getD,
          List.getElem?_append_left (by rw [List.length_take]; omega),
          List.getElem?_take_of_lt hik]
      have hstep : sweepFrom s w h (k+1) = sweepFrom (recycleAt s k) w h k := by
        unfold sweepFrom
        rw [hrange, List.filter_cons, ha, if_pos hoff, List.foldl_cons]
        congr 1
        refine (List.filter_congr ?_).symm
        intro i hi
        have hik : i < k := List.mem_range.mp (List.mem_reverse.mp hi)
        rw [hgetD1 i hik, hpos1]
      obtain ⟨ih1, ih2, ih3, ih4, ih5⟩ := ih (recycleAt s k) hlen1 hnd1 hval1
      have hposfun : (fun j => !offscreenTest (activePos (recycleAt s k) j) w h)
          = (fun j => !offscreenTest (activePos s j) w h) :=
        funext fun j => by rw [hpos1]
      have hposfun2 : (fun j => offscreenTest (activePos (recycleAt s k) j) w h)
          = (fun j => offscreenTest (activePos s j) w h) :=
        funext fun j => by rw [hpos1]
      have hidfun : bodyIdAt (recycleAt s k) = bodyIdAt s := funext hid1
      have htake1 : (recycleAt s k).activeObjects.take k =
          s.activeObjects.take k := by
        rw [hact1]
        exact List.take_left' (by rw [List.length_take]; omega)
      have hdrop1 : (recycleAt s k).activeObjects.drop k =
          s.activeObjects.drop (k+1) := by
        rw [hact1]
        exact List.drop_left' (by rw [List.length_take]; omega)
      have hoffSlots1 : offSlots (recycleAt s k) w h k = offSlots s w h k := by
        unfold offSlots
        rw [htake1, hposfun2]
      have hoffSlots : offSlots s w h (k+1) = offSlots s w h k ++ [a] := by
        unfold offSlots
        rw [htake, List.filter_append]
        congr 1
        simp [hoff]
      have hrev : (offSlots s w h k ++ [a]).reverse =
          a :: (offSlots s w h k).reverse := by
        rw [List.reverse_append]
        rfl
      refine ⟨?_, ?_, ?_, ?_, ?_⟩
      · rw [hstep, ih1, hposfun, htake1, hdrop1, htake, List.filter_append]
        simp [hoff]
      · intro j
        rw [hstep, ih2 j, hoffSlots1, hoffSlots,
          poolObj_set_deact haval hpool1 j]
        by_cases hjk : j ∈ offSlots s w h k
        · have hja : j ≠ a := fun hh =>
            hanotin (hh ▸ List.mem_of_mem_filter hjk)
          rw [if_pos hjk, if_pos (List.mem_append_left _ hjk), if_neg hja]
        · by_cases hja : j = a
          · subst hja
            rw [if_neg hjk, if_pos rfl,
              if_pos (List.mem_append_right _ (List.mem_singleton_self _))]
          · rw [if_neg hjk, if_neg hja, if_neg (by
              intro hmem
              rcases List.mem_append.mp hmem with hm | hm
              · exact hjk hm
              · exact hja (List.mem_singleton.mp hm))]
      · rw [hstep, ih3, hoffSlots1, hidfun, hdyn1, hoffSlots, hrev]
        rfl
      · rw [hstep, ih4, hoffSlots1, hidfun, hworld1, hoffSlots, hrev]
        rfl
      · rw [hstep, ih5, hnext1]
    · -- the k-th active object stays on screen
      have hoff2 : offscreenTest (activePos s a) w h = false := by
        simpa using hoff
      have hstep : sweepFrom s w h (k+1) = sweepFrom s w h k := by
        unfold sweepFrom
        rw [hrange, List.filter_cons, ha, if_neg hoff]
      obtain ⟨ih1, ih2, ih3, ih4, ih5⟩ := ih s (le_of_lt hklen) hnd hval
      have hoffSlots : offSlots s w h (k+1) = offSlots s w h k := by
        unfold offSlots
        rw [htake, List.filter_append]
        simp [hoff2]
      have hdropk : s.activeObjects.drop k =
          a :: s.activeObjects.drop (k+1) := by
        rw [List.drop_eq_getElem_cons hklen, haelem]
      refine ⟨?_, ?_, ?_, ?_, ?_⟩
      · rw [hstep, ih1, htake, List.filter_append, hdropk]
        simp [hoff2]
      · intro j
        rw [hstep, ih2 j, hoffSlots]
      · rw [hstep, ih3, hoffSlots]
      · rw [hstep, ih4, hoffSlots]
      · rw [hstep, ih5]

end PhysicsEngine

namespace PhysicsEngine

theorem removeFirstBy_eq_filter_of_nodup {k : ℕ} :
    ∀ {l : List MBody}, (l.map MBody.id).Nodup →
      removeFirstBy (fun b => b.id == k) l =
        l.filter (fun b => !(b.id == k)) := by
  intro l
  induction l with
  | nil => intro _; rfl
  | cons x xs ih =>
    intro hnd
    simp only [List.map_cons, List.nodup_cons] at hnd
    simp only [removeFirstBy, List.filter_cons]
    by_cases hx : (x.id == k) = true
    · rw [if_pos hx]
      have hxk : x.id = k := by simpa using hx
      rw [hx]
      simp only [Bool.not_true, Bool.false_eq_true, if_false]
      refine (List.filter_eq_self.mpr ?_).symm
      intro y hy
      have hyx : y.id ≠ x.id := by
        intro hh
        exact hnd.1 (hh ▸ List.mem_map_of_mem _ hy)
      simp [hxk ▸ hyx]
    · rw [if_neg hx]
      have hx2 : (x.id == k) = false := by simpa using hx
      rw [hx2]
      simp only [Bool.not_false, if_true]
      rw [ih hnd.2]

theorem removeByIds_eq_filter :
    ∀ (keys : List ℕ) (l : List MBody), (l.map MBody.id).Nodup →
      removeByIds keys l =
        l.filter (fun b => !keys.any (fun k => k == b.id)) := by
  intro keys
  induction keys with
  | nil => intro l _; simp [removeByIds]
  | cons k ks ih =>
    intro l hnd
    show removeByIds ks (removeFirstBy (fun b => b.id == k) l) = _
    rw [removeFirstBy_eq_filter_of_nodup hnd,
      ih _ (hnd.sublist ((List.filter_sublist _).map _)), List.filter_filter]
    refine List.filter_congr ?_
    intro b _
    simp only [List.any_cons, Bool.not_or]
    rw [Bool.and_comm]
    congr 1
    by_cases hbk : b.id = k
    · simp [hbk]
    · simp [hbk, Ne.symm hbk]

theorem recycleOffscreenBodies_eq_sweep (s : EngineState) (w h : ℚ) :
    recycleOffscreenBodies s w h =
      sweepFrom s w h s.activeObjects.length := rfl

end PhysicsEngine

/-- Full characterization of one `recycleOffscreenBodies` pass over a
well-formed state, obtained from the loop invariant `sweepFrom_spec` at
the full scan length. -/
theorem recycleOffscreen_characterization {s : EngineState}
    (hg : goodState s) (w h : ℚ) :
    (recycleOffscreenBodies s w h).activeObjects =
      s.activeObjects.filter (fun j => !offscreenTest (activePos s j) w h) ∧
    (∀ j : ℕ, poolObj (recycleOffscreenBodies s w h) j =
      if j ∈ s.activeObjects.filter
          (fun j => offscreenTest (activePos s j) w h)
      then (poolObj s j).deactivate else poolObj s j) ∧
    (recycleOffscreenBodies s w h).dynamicBodies =
      s.dynamicBodies.filter (fun b =>
        !(s.activeObjects.filter
            (fun j => offscreenTest (activePos s j) w h)).any
          (fun j => bodyIdAt s j == b.id)) ∧
    (recycleOffscreenBodies s w h).worldBodies =
      removeByIds
        (((s.activeObjects.filter
            (fun j => offscreenTest (activePos s j) w h)).reverse).map
          (bodyIdAt s)) s.worldBodies := by
  obtain ⟨h1, h2, h3, h4, _⟩ := sweepFrom_spec w h s.activeObjects.length s
    (le_refl _) hg.activeNodup hg.activeValid
  have hslots : offSlots s w h s.activeObjects.length =
      s.activeObjects.filter
        (fun j => offscreenTest (activePos s j) w h) := by
    unfold offSlots
    rw [List.take_length]
  refine ⟨?_, ?_, ?_, ?_⟩
  · rw [recycleOffscreenBodies_eq_sweep, h1, List.take_length,
      List.drop_length, List.append_nil]
  · intro j
    rw [recycleOffscreenBodies_eq_sweep, h2 j, hslots]
  · rw [recycleOffscreenBodies_eq_sweep, h3, hslots,
      removeByIds_eq_filter _ _ hg.dynIdsNodup]
    refine List.filter_congr ?_
    intro b _
    congr 1
    rw [List.any_map, List.any_reverse]
    rfl
  · rw [recycleOffscreenBodies_eq_sweep, h4, hslots]

set_option maxRecDepth 4000 in
/-- The pool slot filled by the spawn of `exampleStateTop`, with the
weighted type draw `spawnType 1 = "circle"` evaluated. -/
theorem exampleStateTop_pool0 :
    poolObj exampleStateTop 0 =
      ⟨some (PhysicsObject.initBody "circle" ⟨50, -1000⟩ 20 [] 3),
        some "circle", true, 100⟩ := by
  have h : poolObj exampleStateTop 0 =
      ⟨some (PhysicsObject.initBody (spawnType 1) ⟨50, -1000⟩ 20 [] 3),
        some (spawnType 1), true, 100⟩ := rfl
  rw [h, spawnType_one]

/-- C5 amended: each `recycleOffscreenBodies` invocation recycles exactly
those active objects whose position passes the code's off-screen test —
below the bottom (`y > height + 100`), left of the left edge
(`x < -100`), or right of the right edge (`x > width + 100`); there is
**no top-edge test**, so objects above the viewport are kept.  Each
recycled object gets the full removal sequence (world removal,
`bodies.dynamic` removal, `deactivate`, `activeObjects` removal) exactly
once, every surviving object is untouched, and the batched
collect-then-process scan neither skips nor double-processes an object:
the surviving `activeObjects` is exactly the filter of the original. -/
theorem C5_recycleOffscreen_amended {s : EngineState} (hg : goodState s)
    (w h : ℚ) :
    (recycleOffscreenBodies s w h).activeObjects =
      s.activeObjects.filter (fun j => !offscreenTest (activePos s j) w h) ∧
    (∀ j : ℕ, poolObj (recycleOffscreenBodies s w h) j =
      if j ∈ s.activeObjects.filter
          (fun j => offscreenTest (activePos s j) w h)
      then (poolObj s j).deactivate else poolObj s j) ∧
    (recycleOffscreenBodies s w h).dynamicBodies =
      s.dynamicBodies.filter (fun b =>
        !(s.activeObjects.filter
            (fun j => offscreenTest (activePos s j) w h)).any
          (fun j => bodyIdAt s j == b.id)) ∧
    (recycleOffscreenBodies s w h).worldBodies =
      removeByIds
        (((s.activeObjects.filter
            (fun j => offscreenTest (activePos s j) w h)).reverse).map
          (bodyIdAt s)) s.worldBodies :=
  recycleOffscreen_characterization hg w h

set_option maxRecDepth 4000 in
/-- Witness for C5 (amended) at the reachable state with one object
spawned far to the right of the viewport (`x = 1000 > 800 + 100`): the
characterization applies, and the surviving `activeObjects` is the
filter of the original by the code's three-sided off-screen test. -/
theorem C5_witness :
    (recycleOffscreenBodies exampleStateOff 800 600).activeObjects =
      exampleStateOff.activeObjects.filter
        (fun j => !offscreenTest (activePos exampleStateOff j) 800 600) := by
  exact (C5_recycleOffscreen_amended (reachable_goodState
    (Reachable.step (.spawn ⟨1000, 100⟩ 100 exampleRnd)
      (Reachable.init 800 600))) 800 600).1

set_option maxRecDepth 4000 in
/-- C5 counterexample: in the reachable state whose single active object
sits at `(50, -1000)` — beyond the top of the 800×600 viewport expanded
by the 100-unit buffer, i.e. inside the spec's four-sided off-screen
region — `recycleOffscreenBodies` recycles nothing: `activeObjects` is
unchanged and the slot stays active, because the code tests only the
bottom, left and right edges. -/
theorem C5_counterexample :
    specBeyondExpandedRect (activePos exampleStateTop 0) 800 600 ∧
    exampleStateTop.activeObjects = [0] ∧
    (recycleOffscreenBodies exampleStateTop 800 600).activeObjects =
      exampleStateTop.activeObjects ∧
    (poolObj (recycleOffscreenBodies exampleStateTop 800 600) 0).active =
      true := by
  have hpos : activePos exampleStateTop 0 = ⟨50, -1000⟩ := by
    unfold activePos
    rw [exampleStateTop_pool0]
    rfl
  have hlen : exampleStateTop.activeObjects = [0] := by decide
  have hoff : offscreenTest (activePos exampleStateTop 0) 800 600 = false := by
    rw [hpos]
    norm_num [offscreenTest]
  have hg : goodState exampleStateTop :=
    reachable_goodState (Reachable.step (.spawn ⟨50, -1000⟩ 100 exampleRnd)
      (Reachable.init 800 600))
  obtain ⟨h1, h2, _, _⟩ := recycleOffscreen_characterization hg 800 600
  have hfilterOff : exampleStateTop.activeObjects.filter
      (fun j => offscreenTest (activePos exampleStateTop j) 800 600) = [] := by
    rw [hlen]
    simp [hoff]
  have hfilterOn : exampleStateTop.activeObjects.filter
      (fun j => !offscreenTest (activePos exampleStateTop j) 800 600) =
      exampleStateTop.activeObjects := by
    rw [hlen]
    simp [hoff]
  refine ⟨?_, hlen, ?_, ?_⟩
  · rw [hpos]
    show (50 : ℚ) < -100 ∨ (50 : ℚ) > 800 + 100 ∨ (-1000 : ℚ) < -100 ∨
      (-1000 : ℚ) > 600 + 100
    right; right; left
    norm_num
  · rw [h1, hfilterOn]
  · rw [h2 0, hfilterOff]
    simp only [List.not_mem_nil, if_false]
    rw [exampleStateTop_pool0]
